import Mathlib

/-!
Verification development for the gogstools `gs` declarative command-line
framework.  The Go sources (gs/types.go, gs/parser.go, gs/command.go and the
chart example) are shallowly embedded below: Go strings are Lean `String`s,
Go `map[string]interface{}` values are association lists in insertion order,
`interface{}` values are the inductive `GoVal`, the filesystem is a partial
map from file names to the list of scanned lines, and fallible Go functions
return `Except String`.
-/

namespace GS

/-! ### ASCII models of the Go `strings` helpers used by the sources -/

/-- Model of Go `strings.ToLower` on one character (all strings in scope are
ASCII). -/
def asciiLower (c : Char) : Char :=
  if 'A' ≤ c ∧ c ≤ 'Z' then Char.ofNat (c.toNat + 32) else c

/-- Model of Go `strings.ToLower`. -/
def goToLower (s : String) : String := ⟨s.data.map asciiLower⟩

/-- Model of Go `strings.HasPrefix`. -/
def goHasPre (s pre : String) : Bool := pre.data.isPrefixOf s.data

/-- Model of Go `strings.HasSuffix`. -/
def goHasSuffix (s suf : String) : Bool := suf.data.isSuffixOf s.data

/-- Model of Go `unicode.IsSpace` restricted to ASCII. -/
def goIsSpace (c : Char) : Bool :=
  c == ' ' || c == '\t' || c == '\n' || c == '\x0b' || c == '\x0c' || c == '\r'

/-- Model of Go `strings.TrimSpace`. -/
def goTrimSpace (s : String) : String :=
  ⟨((s.data.dropWhile goIsSpace).reverse.dropWhile goIsSpace).reverse⟩

/-- Model of Go `strings.Contains` for a one-character substring (every use of
`strings.Contains` in the sources has a one-character needle). -/
def containsChar (s : String) (c : Char) : Bool := s.data.contains c

/-- Model of Go `strings.ContainsAny`. -/
def containsAnyOf (s : String) (chars : List Char) : Bool :=
  s.data.any (fun c => chars.contains c)

/-- Model of Go `strings.Index` for a one-character substring. -/
def indexOfChar (s : String) (c : Char) : Int :=
  match s.data.findIdx? (· == c) with
  | some i => (i : Int)
  | none => -1

/-- Worker for `splitOnChar`. -/
def splitOnCharAux (sep : Char) : List Char → List Char → List String
  | [], cur => [⟨cur⟩]
  | c :: rest, cur =>
    if c == sep then ⟨cur⟩ :: splitOnCharAux sep rest []
    else splitOnCharAux sep rest (cur ++ [c])

/-- Model of Go `strings.Split` for a one-character separator (every use of
`strings.Split` in the sources has a one-character separator). -/
def splitOnChar (sep : Char) (s : String) : List String :=
  splitOnCharAux sep s.data []

/-- Model of Go `strings.SplitN(s, sep, 2)` for a one-character separator. -/
def splitN2 (sep : Char) (s : String) : List String :=
  match s.data.findIdx? (· == sep) with
  | none => [s]
  | some i => [⟨s.data.take i⟩, ⟨s.data.drop (i + 1)⟩]

/-- Drop the first `n` characters of a string (Go slice `s[n:]`). -/
def dropStr (n : Nat) (s : String) : String := ⟨s.data.drop n⟩

/-- Association-list lookup, the model of Go map indexing. -/
def assocGet {α : Type} : List (String × α) → String → Option α
  | [], _ => none
  | (k', v) :: rest, k => if k' = k then some v else assocGet rest k

/-- Association-list update, the model of Go map assignment. -/
def assocSet {α : Type} : List (String × α) → String → α → List (String × α)
  | [], k, v => [(k, v)]
  | (k', v') :: rest, k, v =>
    if k' = k then (k', v) :: rest else (k', v') :: assocSet rest k v

/-! ### Data model (gs/types.go) -/

inductive FieldType where
  | FieldTypeString | FieldTypeField | FieldTypeFile
  | FieldTypeNumber | FieldTypeFlag | FieldTypeMulti
deriving DecidableEq, Repr

inductive ArgumentType where
  | ArgumentTypeString | ArgumentTypeField | ArgumentTypeContent
  | ArgumentTypeFile | ArgumentTypeNumber
deriving DecidableEq, Repr

open FieldType ArgumentType

structure ArgumentSpec where
  name : String
  type : ArgumentType
deriving DecidableEq, Repr

inductive FieldScope where
  | ScopeGlobal | ScopeLocal
deriving DecidableEq, Repr

inductive FieldMode where
  | ModeLast | ModeList
deriving DecidableEq, Repr

open FieldScope FieldMode

/-- Go `interface{}` values as stored in clause maps.  `map` is a
`map[string]interface{}` kept in insertion order and `strList` is a Go
`[]string` (used for the reserved `_args` key). -/
inductive GoVal where
  | str (s : String)
  | num (q : Rat)
  | bool (b : Bool)
  | list (l : List GoVal)
  | strList (l : List String)
  | map (m : List (String × GoVal))

abbrev GoMap := List (String × GoVal)

/-- Field metadata parsed from struct tags (gs/types.go `FieldMeta`). -/
structure FieldMeta where
  name : String
  ftype : FieldType
  scope : FieldScope
  mode : FieldMode
  args : List ArgumentSpec := []
  defaultValue : Option GoVal := none
  help : String := ""
  required : Bool := false
  complete : String := ""
  suffix : String := ""
  enum : List String := []

/-- A clause of parsed field values (gs/types.go `ClauseSet`). -/
structure ClauseSet where
  Fields : GoMap
  IsNegated : Bool := false

/-! ### Descriptor parsing (gs/parser.go) -/

/-- Model of Go `strconv.ParseBool`. -/
def goParseBool (s : String) : Option Bool :=
  if s = "1" ∨ s = "t" ∨ s = "T" ∨ s = "true" ∨ s = "TRUE" ∨ s = "True" then some true
  else if s = "0" ∨ s = "f" ∨ s = "F" ∨ s = "false" ∨ s = "FALSE" ∨ s = "False" then some false
  else none

/-- Numeric value of a nonempty list of decimal digits. -/
def digitsVal : List Char → Option Nat
  | [] => none
  | l => if l.all (fun c => '0' ≤ c ∧ c ≤ '9')
         then some (l.foldl (fun acc c => acc * 10 + (c.toNat - '0'.toNat)) 0)
         else none

/-- Modelled from the spec: "Numeric-kind values are parsed as floating point;
malformed input fails".  Go delegates to `strconv.ParseFloat`, which is not
part of this repository; the model accepts an optional sign, decimal digits
and an optional fractional part, producing the exact rational. -/
def parseGoFloat (s : String) : Option Rat :=
  let signBody : Int × List Char :=
    match s.data with
    | '-' :: r => (-1, r)
    | '+' :: r => (1, r)
    | l => (1, l)
  match splitOnCharAux '.' signBody.2 [] with
  | [ip] => (digitsVal ip.data).map (fun n => (signBody.1 * n : Int))
  | [ip, fp] =>
    match digitsVal ip.data, digitsVal fp.data with
    | some n, some m =>
      some (signBody.1 * ((n : Rat) + (m : Rat) / ((10 : Rat) ^ fp.data.length)))
    | _, _ => none
  | _ => none

/-- gs/parser.go `parseDefaultValue`. -/
def parseDefaultValue (value : String) (ftype : FieldType) : GoVal :=
  match ftype with
  | FieldTypeNumber =>
    match parseGoFloat value with
    | some q => .num q
    | none => .num 0
  | FieldTypeFlag =>
    match goParseBool value with
    | some b => .bool b
    | none => .bool false
  | _ => .str value

/-- gs/parser.go `parseFlagName` as a character transducer: a dash is inserted
before every later capital and capitals are lowered. -/
def flagNameAux : List Char → Bool → List Char
  | [], _ => []
  | c :: rest, first =>
    (if first = false ∧ 'A' ≤ c ∧ c ≤ 'Z' then ['-', asciiLower c] else [asciiLower c])
      ++ flagNameAux rest false

/-- gs/parser.go `parseFlagName`. -/
def parseFlagName (fieldName : String) : String :=
  if fieldName.length = 1 then "-" ++ goToLower fieldName
  else "-" ++ ⟨flagNameAux fieldName.data true⟩

/-- gs/parser.go `parseArgumentType`; unrecognised names fall back to the
string sub-kind ("for compatibility" in the source, hence no error). -/
def parseArgumentType (s : String) : ArgumentType :=
  if s = "string" then ArgumentTypeString
  else if s = "field" then ArgumentTypeField
  else if s = "content" then ArgumentTypeContent
  else if s = "file" then ArgumentTypeFile
  else if s = "number" then ArgumentTypeNumber
  else ArgumentTypeString

/-- gs/parser.go `parseArgumentSpecs` (the colon and comma branches of the Go
code run the same per-part logic). -/
def parseArgumentSpecs (value : String) : Except String (List ArgumentSpec) :=
  let parts := if containsChar value ':' then splitOnChar ':' value else splitOnChar ',' value
  .ok (parts.map (fun part =>
    let part := goTrimSpace part
    { name := part, type := parseArgumentType part }))

/-- gs/parser.go `parseEnumValues`. -/
def parseEnumValues (value : String) : List String :=
  if containsChar value ',' then (splitOnChar ',' value).map goTrimSpace
  else if containsChar value ':' then (splitOnChar ':' value).map goTrimSpace
  else [goTrimSpace value]

/-- gs/parser.go `parseTagParts`: comma split that does not split inside
braces (`braceDepth` is a Go `int`, hence `Int` here). -/
def parseTagPartsAux : List Char → Int → List Char → List String
  | [], _, cur => if cur.length > 0 then [⟨cur⟩] else []
  | c :: rest, depth, cur =>
    if c = '\x7b' then parseTagPartsAux rest (depth + 1) (cur ++ [c])
    else if c = '\x7d' then parseTagPartsAux rest (depth - 1) (cur ++ [c])
    else if c = ',' then
      if depth = 0 then ⟨cur⟩ :: parseTagPartsAux rest depth []
      else parseTagPartsAux rest depth (cur ++ [c])
    else parseTagPartsAux rest depth (cur ++ [c])

/-- gs/parser.go `parseTagParts`. -/
def parseTagParts (tag : String) : List String :=
  parseTagPartsAux tag.data 0 []

/-- gs/parser.go `parseFieldType`. -/
def parseFieldType (s : String) (meta : FieldMeta) : Except String FieldMeta :=
  if s = "string" then .ok { meta with ftype := FieldTypeString }
  else if s = "field" then .ok { meta with ftype := FieldTypeField }
  else if s = "file" then .ok { meta with ftype := FieldTypeFile }
  else if s = "number" then .ok { meta with ftype := FieldTypeNumber }
  else if s = "flag" then .ok { meta with ftype := FieldTypeFlag }
  else if s = "multi" then .ok { meta with ftype := FieldTypeMulti }
  else .error ("unknown field type: " ++ s)

/-- gs/parser.go `parseFieldScope`. -/
def parseFieldScope (s : String) (meta : FieldMeta) : Except String FieldMeta :=
  if s = "global" then .ok { meta with scope := ScopeGlobal }
  else if s = "local" then .ok { meta with scope := ScopeLocal }
  else .error ("unknown field scope: " ++ s)

/-- gs/parser.go `parseFieldMode`. -/
def parseFieldMode (s : String) (meta : FieldMeta) : Except String FieldMeta :=
  if s = "last" then .ok { meta with mode := ModeLast }
  else if s = "list" then .ok { meta with mode := ModeList }
  else .error ("unknown field mode: " ++ s)

/-- gs/parser.go `parseKeyValue`. -/
def parseKeyValue (kv : String) (meta : FieldMeta) : Except String FieldMeta :=
  let parts := splitN2 '=' kv
  if parts.length ≠ 2 then .error ("invalid key=value pair: " ++ kv)
  else
    let key := goTrimSpace (parts.getD 0 "")
    let value := goTrimSpace (parts.getD 1 "")
    if key = "help" then .ok { meta with help := value }
    else if key = "default" then
      .ok { meta with defaultValue := some (parseDefaultValue value meta.ftype) }
    else if key = "required" then
      match goParseBool value with
      | some b => .ok { meta with required := b }
      | none => .error ("invalid boolean for required: " ++ value)
    else if key = "complete" then .ok { meta with complete := value }
    else if key = "args" then
      match parseArgumentSpecs value with
      | .ok args => .ok { meta with args := args }
      | .error e => .error ("invalid args specification: " ++ e)
    else if key = "suffix" then .ok { meta with suffix := value }
    else if key = "enum" then .ok { meta with enum := parseEnumValues value }
    else .error ("unknown key in tag: " ++ key)

/-- The positional loop of gs/parser.go `parseFieldTag`, indexed exactly as
the Go `for i, part := range parts` (the trailing no-`=` default branch of the
Go switch silently ignores the part). -/
def parseFieldTagLoop : List (Nat × String) → FieldMeta → Except String FieldMeta
  | [], meta => .ok meta
  | (i, part) :: rest, meta =>
    let part := goTrimSpace part
    if part = "" then parseFieldTagLoop rest meta
    else if containsChar part '=' then
      match parseKeyValue part meta with
      | .ok meta' => parseFieldTagLoop rest meta'
      | .error e => .error e
    else if i = 0 then
      match parseFieldType part meta with
      | .ok meta' => parseFieldTagLoop rest meta'
      | .error e => .error e
    else if i = 1 then
      match parseFieldScope part meta with
      | .ok meta' => parseFieldTagLoop rest meta'
      | .error e => .error e
    else if i = 2 then
      match parseFieldMode part meta with
      | .ok meta' => parseFieldTagLoop rest meta'
      | .error e => .error e
    else parseFieldTagLoop rest meta

/-- gs/parser.go `parseFieldTag`. -/
def parseFieldTag (fieldName tag : String) : Except String FieldMeta :=
  let meta : FieldMeta :=
    { name := fieldName, ftype := FieldTypeString, scope := ScopeGlobal, mode := ModeLast }
  let parts := parseTagParts tag
  if parts.length = 0 then .error "empty tag"
  else parseFieldTagLoop parts.enum meta

/-! ### Argument parsing (gs/command.go) -/

/-- gs/command.go `getStringSlice`. -/
def getStringSlice (v : Option GoVal) : List String :=
  match v with
  | none => []
  | some (.strList l) => l
  | some _ => []

/-- The flag-name lookup loop at the top of `parseFlagWithNegation`. -/
def findFieldMeta : List FieldMeta → String → Option FieldMeta
  | [], _ => none
  | m :: rest, flagName =>
    if parseFlagName m.name = flagName then some m else findFieldMeta rest flagName

/-- The shared list/last storage logic of `parseFlagWithNegation` (the Go code
repeats it verbatim for the multi-argument and the single-argument branch). -/
def storeByMode (mode : FieldMode) (name : String) (v : GoVal) (target : GoMap) : GoMap :=
  match mode with
  | ModeList =>
    match assocGet target name with
    | none => assocSet target name (.list [v])
    | some (.list l) => assocSet target name (.list (l ++ [v]))
    | some other => assocSet target name (.list [other, v])
  | ModeLast => assocSet target name v

/-- Routing of a store to the per-clause map or the command-wide map by the
field's scope (`target` selection in `parseFlagWithNegation`). -/
def withTarget (fieldMeta : FieldMeta) (clause : ClauseSet) (global : GoMap)
    (f : GoMap → GoMap) : ClauseSet × GoMap :=
  match fieldMeta.scope with
  | ScopeGlobal => (clause, f global)
  | ScopeLocal => ({ clause with Fields := f clause.Fields }, global)

/-- gs/command.go `parseValue`. -/
def parseValue (value : String) (ftype : FieldType) : Except String GoVal :=
  match ftype with
  | FieldTypeString | FieldTypeField | FieldTypeFile => .ok (.str value)
  | FieldTypeNumber =>
    match parseGoFloat value with
    | some q => .ok (.num q)
    | none => .error ("strconv.ParseFloat: parsing \"" ++ value ++ "\": invalid syntax")
  | FieldTypeFlag =>
    match goParseBool value with
    | some b => .ok (.bool b)
    | none => .error ("strconv.ParseBool: parsing \"" ++ value ++ "\": invalid syntax")
  | _ => .ok (.str value)

/-- gs/command.go `parseValueWithValidation`: type conversion followed by the
immediate enum check for text-kind fields. -/
def parseValueWithValidation (value : String) (fieldMeta : FieldMeta) : Except String GoVal :=
  match parseValue value fieldMeta.ftype with
  | .error e => .error e
  | .ok parsedValue =>
    if fieldMeta.ftype = FieldTypeString ∧ fieldMeta.enum.length > 0 then
      if fieldMeta.enum.contains value then .ok parsedValue
      else .error ("invalid value '" ++ value ++ "', must be one of: "
        ++ String.intercalate ", " fieldMeta.enum)
    else .ok parsedValue

/-- gs/command.go `parseValueByArgumentType`. -/
def parseValueByArgumentType (value : String) (argType : ArgumentType) : Except String GoVal :=
  match argType with
  | ArgumentTypeNumber =>
    match parseGoFloat value with
    | some q => .ok (.num q)
    | none => .error ("strconv.ParseFloat: parsing \"" ++ value ++ "\": invalid syntax")
  | _ => .ok (.str value)

/-- The per-argument loop of the multi-argument branch of
`parseFlagWithNegation`; the pairs are `fieldMeta.Args` zipped with the value
tokens (the Go code indexes `args[i+1]`, valid by the preceding length
check). -/
def buildArgValues (flagName : String) : List (ArgumentSpec × String) → Except String GoMap
  | [] => .ok []
  | (spec, v) :: rest =>
    match parseValueByArgumentType v spec.type with
    | .error e => .error ("parsing argument " ++ spec.name ++ " for " ++ flagName ++ ": " ++ e)
    | .ok pv =>
      match buildArgValues flagName rest with
      | .error e => .error e
      | .ok m => .ok ((spec.name, pv) :: m)

/-- gs/command.go `parseFlagWithNegation`.  Returns the number of tokens
consumed together with the updated clause and command-wide map. -/
def parseFlagWithNegation (fields : List FieldMeta) (args : List String)
    (clause : ClauseSet) (global : GoMap) (negated : Bool) :
    Except String (Nat × ClauseSet × GoMap) :=
  match args with
  | [] => .error "no arguments to parse"
  | flagName :: restArgs =>
    match findFieldMeta fields flagName with
    | none => .error ("unknown flag: " ++ flagName)
    | some fieldMeta =>
      match fieldMeta.ftype with
      | FieldTypeFlag =>
        let (clause', global') :=
          withTarget fieldMeta clause global (fun t => assocSet t fieldMeta.name (.bool true))
        .ok (1, clause', global')
      | FieldTypeMulti =>
        if fieldMeta.args.length = 0 then
          .error ("multi-argument flag " ++ flagName ++ " has no argument specification")
        else
          let requiredArgs := fieldMeta.args.length
          if args.length < requiredArgs + 1 then
            .error ("flag " ++ flagName ++ " requires " ++ toString requiredArgs ++ " arguments")
          else
            match buildArgValues flagName (fieldMeta.args.zip restArgs) with
            | .error e => .error e
            | .ok argValues =>
              let argValues :=
                if negated then argValues ++ [("_negated", .bool true)] else argValues
              let (clause', global') := withTarget fieldMeta clause global
                (storeByMode fieldMeta.mode fieldMeta.name (.map argValues))
              .ok (requiredArgs + 1, clause', global')
      | _ =>
        match restArgs with
        | [] => .error ("flag " ++ flagName ++ " requires a value")
        | value :: _ =>
          match parseValueWithValidation value fieldMeta with
          | .error e => .error ("parsing value for " ++ flagName ++ ": " ++ e)
          | .ok parsedValue =>
            let valueToStore :=
              if negated then GoVal.map [("value", parsedValue), ("_negated", .bool true)]
              else parsedValue
            let (clause', global') := withTarget fieldMeta clause global
              (storeByMode fieldMeta.mode fieldMeta.name valueToStore)
            .ok (2, clause', global')

/-- The main scanning loop of gs/command.go `Parse`.  After a flag consumes
`consumed` tokens the Go loop continues at `i + consumed`; here the flag token
has already been split off, so the tail continues at `rest.drop (consumed - 1)`
(the two agree because `parseFlagWithNegation` always consumes at least the
flag token itself). -/
def parseArgsLoop (fields : List FieldMeta) : List String → List ClauseSet → ClauseSet →
    GoMap → Except String (List ClauseSet × ClauseSet × GoMap)
  | [], clauses, current, global => .ok (clauses, current, global)
  | arg :: rest, clauses, current, global =>
    if arg = "+" then
      parseArgsLoop fields rest (clauses ++ [current]) { Fields := [], IsNegated := true } global
    else if arg = "-" then
      parseArgsLoop fields rest (clauses ++ [current]) { Fields := [], IsNegated := false } global
    else if goHasPre arg "+" then
      if arg.length > 1 then
        let flagArg := "-" ++ dropStr 1 arg
        match parseFlagWithNegation fields (flagArg :: rest) current global true with
        | .error e => .error e
        | .ok (consumed, current', global') =>
          parseArgsLoop fields (rest.drop (consumed - 1)) clauses current' global'
      else
        parseArgsLoop fields rest (clauses ++ [current]) { Fields := [], IsNegated := true } global
    else if goHasPre arg "-" then
      if arg.length > 1 then
        match parseFlagWithNegation fields (arg :: rest) current global false with
        | .error e => .error e
        | .ok (consumed, current', global') =>
          parseArgsLoop fields (rest.drop (consumed - 1)) clauses current' global'
      else
        parseArgsLoop fields rest (clauses ++ [current]) { Fields := [], IsNegated := false } global
    else
      let cur1 := { current with Fields := (assocSet current.Fields "_args"
        (.strList (getStringSlice (assocGet current.Fields "_args") ++ [arg]))) }
      let lowerArg := goToLower arg
      let cur2 :=
        if (goHasSuffix lowerArg ".tsv" || goHasSuffix lowerArg ".csv")
            && (assocGet cur1.Fields "Argv").isNone && (assocGet global "Argv").isNone then
          { cur1 with Fields := assocSet cur1.Fields "Argv" (.str arg) }
        else cur1
      parseArgsLoop fields rest clauses cur2 global
termination_by args => args.length
decreasing_by
  all_goals simp_wf
  all_goals omega

/-- The command-wide-value application step at the end of `Parse`: every
clause receives each command-wide value it does not already define. -/
def applyGlobalFields (global : GoMap) (fieldsMap : GoMap) : GoMap :=
  global.foldl (fun acc kv =>
    if (assocGet acc kv.1).isNone then assocSet acc kv.1 kv.2 else acc) fieldsMap

/-- gs/command.go `applyDefaults`. -/
def applyDefaults (fields : List FieldMeta) (clauses : List ClauseSet) : List ClauseSet :=
  clauses.map (fun c =>
    { c with Fields := fields.foldl (fun acc m =>
        if (assocGet acc m.name).isNone then
          match m.defaultValue with
          | some d => assocSet acc m.name d
          | none => acc
        else acc) c.Fields })

/-- gs/command.go `Parse`: scan, append the trailing clause, copy command-wide
values into every clause, then fill defaults.  (The final
`applyGlobalToConfig` step writes into the Go config struct via reflection
and cannot fail; it does not contribute to the clause list returned here.) -/
def Parse (fields : List FieldMeta) (args : List String) : Except String (List ClauseSet) :=
  match parseArgsLoop fields args [] { Fields := [], IsNegated := false } [] with
  | .error e => .error e
  | .ok (clauses, current, global) =>
    let clauses := clauses ++ [current]
    let clauses := clauses.map (fun c => { c with Fields := applyGlobalFields global c.Fields })
    .ok (applyDefaults fields clauses)

/-- Outcome of gs/command.go `Execute`: the built-in switches recognised in
first position, or the result of parsing (execution proper is delegated to
the Commander implementation and out of scope). -/
inductive ExecOutcome where
  | helpOut
  | manOut
  | completionOut
  | bashCompletionOut
  | executed (clauses : List ClauseSet)
  | failed (msg : String)

/-- gs/command.go `Execute` up to the hand-off to the Commander. -/
def Execute (fields : List FieldMeta) (args : List String) : ExecOutcome :=
  let parseStep : ExecOutcome :=
    match Parse fields args with
    | .error e => .failed ("parsing arguments: " ++ e)
    | .ok clauses => .executed clauses
  match args with
  | [] => parseStep
  | arg0 :: _ =>
    if arg0 = "-help" ∨ arg0 = "--help" then .helpOut
    else if arg0 = "-man" then .manOut
    else if arg0 = "-complete" then .completionOut
    else if arg0 = "-bash-completion" then .bashCompletionOut
    else parseStep

/-! ### Concrete configurations from the sources -/

/-- A struct field with the given tag, as `reflectFields` would produce it
(empty on a tag `reflectFields` would reject). -/
def fieldsOfTag (fieldName tag : String) : List FieldMeta :=
  match parseFieldTag fieldName tag with
  | .ok m => [m]
  | .error _ => []

/-- The two per-clause fields of the chart example used by the clause-split
test vector: `Y` accumulates tabular field names per clause and `Right` is a
per-clause boolean flag. -/
def c1Fields : List FieldMeta :=
  fieldsOfTag "Y" "field,local,list,help=Use field for Y axis" ++
  fieldsOfTag "Right" "flag,local,last,help=Use right-hand scale"

/-- gs/command_test.go `TestCompletionConfig`. -/
def testCompletionFields : List FieldMeta :=
  fieldsOfTag "Name" "string,global,last,help=Name field" ++
  fieldsOfTag "Type" "string,global,last,help=Type field,enum=bar:line:area,default=bar" ++
  fieldsOfTag "Field" "field,global,last,help=Field name" ++
  fieldsOfTag "File" "file,global,last,help=File path,suffix=.tsv" ++
  fieldsOfTag "DataFile" "file,global,last,help=Data file,suffix=.[tc]sv" ++
  fieldsOfTag "Config" "file,global,last,help=Config file,suffix=.\x7bjson,yaml\x7d" ++
  fieldsOfTag "Match" "multi,local,list,args=field:content,help=Match conditions"

/-! ### Model of Go `path/filepath.Match` (used by `matchesSuffixPattern`)

`filepath.Match` is standard-library code outside this repository; the model
below follows its algorithm exactly (non-Windows, separator `/`, ASCII input,
`.error ()` standing for `ErrBadPattern`). -/

def stripStars : List Char → Bool × List Char
  | [] => (false, [])
  | c :: rest =>
    if c = '*' then (true, (stripStars rest).2)
    else (false, c :: rest)

def scanChunkAux : List Char → Bool → List Char × List Char
  | [], _ => ([], [])
  | c :: rest, inrange =>
    if c = '\\' then
      match rest with
      | d :: rest2 =>
        let p := scanChunkAux rest2 inrange
        ('\\' :: d :: p.1, p.2)
      | [] => (['\\'], [])
    else if c = '[' then
      let p := scanChunkAux rest true
      (c :: p.1, p.2)
    else if c = ']' then
      let p := scanChunkAux rest false
      (c :: p.1, p.2)
    else if c = '*' then
      if inrange then
        let p := scanChunkAux rest inrange
        (c :: p.1, p.2)
      else ([], c :: rest)
    else
      let p := scanChunkAux rest inrange
      (c :: p.1, p.2)

def scanChunk (p : List Char) : Bool × List Char × List Char :=
  let sp := stripStars p
  let cr := scanChunkAux sp.2 false
  (sp.1, cr.1, cr.2)

def getEsc (chunk : List Char) : Except Unit (Char × List Char) :=
  match chunk with
  | [] => .error ()
  | c :: rest =>
    if c = '-' ∨ c = ']' then .error ()
    else
      match (if c = '\\' then rest.head?.map (fun d => (d, rest.tail)) else some (c, rest)) with
      | none => .error ()
      | some (r, nchunk) => if nchunk.isEmpty then .error () else .ok (r, nchunk)

theorem getEsc_lt {chunk : List Char} {r : Char} {n : List Char}
    (h : getEsc chunk = .ok (r, n)) : n.length < chunk.length := by
  match chunk with
  | [] => simp [getEsc] at h
  | c :: rest =>
    by_cases hc : c = '-' ∨ c = ']'
    · simp [getEsc, hc] at h
    · by_cases hb : c = '\\'
      · match rest with
        | [] => simp [getEsc, hc, hb] at h
        | d :: rest2 =>
          simp only [getEsc, if_neg hc, if_pos hb, List.head?, List.tail, Option.map] at h
          split at h
          · simp at h
          · simp only [Except.ok.injEq, Prod.mk.injEq] at h
            obtain ⟨-, h2⟩ := h
            subst h2
            simp
            omega
      · simp only [getEsc, if_neg hc, if_neg hb] at h
        split at h
        · simp at h
        · simp only [Except.ok.injEq, Prod.mk.injEq] at h
          obtain ⟨-, h2⟩ := h
          subst h2
          simp

def classRanges (r : Char) (chunk : List Char) (nrange : Nat) (matched : Bool) :
    Except Unit (Bool × List Char) :=
  if chunk.head? = some ']' ∧ nrange > 0 then .ok (matched, chunk.tail)
  else
    match hEsc : getEsc chunk with
    | .error _ => .error ()
    | .ok (lo, chunk1) =>
      match hc1 : chunk1 with
      | '-' :: chunk1' =>
        match hEsc2 : getEsc chunk1' with
        | .error _ => .error ()
        | .ok (hi, chunk2) =>
          classRanges r chunk2 (nrange + 1) (matched || decide (lo ≤ r ∧ r ≤ hi))
      | _ =>
        classRanges r chunk1 (nrange + 1) (matched || decide (lo ≤ r ∧ r ≤ lo))
termination_by chunk.length
decreasing_by
  · have h1 := getEsc_lt hEsc
    have h2 := getEsc_lt hEsc2
    simp only [List.length_cons] at h1
    omega
  · rw [hc1]
    exact getEsc_lt hEsc

theorem classRanges_lt_aux {r : Char} : ∀ (n : Nat) (chunk : List Char),
    chunk.length = n → ∀ {nrange : Nat} {matched b : Bool} {rest : List Char},
    classRanges r chunk nrange matched = .ok (b, rest) → rest.length < chunk.length := by
  intro n
  induction n using Nat.strong_induction_on with
  | _ n ih =>
    intro chunk hn nrange matched b rest h
    rw [classRanges] at h
    split at h
    · rename_i hbr
      simp only [Except.ok.injEq, Prod.mk.injEq] at h
      obtain ⟨-, h2⟩ := h
      subst h2
      obtain ⟨hh, -⟩ := hbr
      cases chunk with
      | nil => simp at hh
      | cons c cs => simp
    · split at h
      · simp at h
      · rename_i lo chunk1 hEsc
        split at h
        · rename_i chunk1' heq
          split at h
          · simp at h
          · rename_i hi chunk2 hEsc2
            have hlt1 := getEsc_lt hEsc
            have hlt2 := getEsc_lt hEsc2
            subst hn
            have := ih chunk2.length (by simp at hlt1; omega) chunk2 rfl h
            simp only [List.length_cons] at hlt1
            omega
        · rename_i chunk1 hEsc1 hne
          have hlt1 := getEsc_lt hEsc1
          subst hn
          have := ih chunk1.length hlt1 chunk1 rfl h
          omega

theorem classRanges_lt {r : Char} {chunk : List Char} {nrange : Nat} {matched b : Bool}
    {rest : List Char} (h : classRanges r chunk nrange matched = .ok (b, rest)) :
    rest.length < chunk.length :=
  classRanges_lt_aux chunk.length chunk rfl h

def matchChunk : List Char → List Char → Bool → Except Unit (Option (List Char))
  | [], s, failed => if failed then .ok none else .ok (some s)
  | c :: chunkRest, s, failed0 =>
    let failed := failed0 || s.isEmpty
    if c = '[' then
      let r : Char := if failed then Char.ofNat 0 else s.headD (Char.ofNat 0)
      let s' : List Char := if failed then s else s.tail
      let negated : Bool := chunkRest.head? = some '^'
      match hcr : classRanges r (if chunkRest.head? = some '^' then chunkRest.tail else chunkRest) 0 false with
      | .error _ => .error ()
      | .ok (m, chunk3) => matchChunk chunk3 s' (failed || (m == negated))
    else if c = '?' then
      if failed then matchChunk chunkRest s failed
      else
        match s with
        | s0 :: srest => matchChunk chunkRest srest (failed || (s0 == '/'))
        | [] => matchChunk chunkRest [] true
    else if c = '\\' then
      match chunkRest with
      | [] => .error ()
      | d :: chunkRest2 =>
        if failed then matchChunk chunkRest2 s failed
        else
          match s with
          | s0 :: srest => matchChunk chunkRest2 srest (failed || (d != s0))
          | [] => matchChunk chunkRest2 [] true
    else
      if failed then matchChunk chunkRest s failed
      else
        match s with
        | s0 :: srest => matchChunk chunkRest srest (failed || (c != s0))
        | [] => matchChunk chunkRest [] true
termination_by chunk _ _ => chunk.length
decreasing_by
  all_goals simp only [List.length_cons]
  · have h2 := classRanges_lt hcr
    by_cases hh : chunkRest.head? = some '^'
    · simp [hh] at h2
      have := List.length_tail chunkRest
      omega
    · simp [hh] at h2
      omega
  all_goals omega

def starLoop (chunk : List Char) (restEmpty : Bool) : List Char → Except Unit (Option (List Char))
  | [] => .ok none
  | c :: nameRest =>
    if c = '/' then .ok none
    else
      match matchChunk chunk nameRest false with
      | .error _ => .error ()
      | .ok (some t) =>
        if restEmpty ∧ t ≠ [] then starLoop chunk restEmpty nameRest
        else .ok (some t)
      | .ok none => starLoop chunk restEmpty nameRest

theorem stripStars_le (p : List Char) : (stripStars p).2.length ≤ p.length := by
  induction p with
  | nil => simp [stripStars]
  | cons c rest ih =>
    by_cases hc : c = '*' <;> simp [stripStars, hc] <;> omega

theorem stripStars_eq_of_not_star {p : List Char} (h : (stripStars p).1 = false) :
    (stripStars p).2 = p := by
  cases p with
  | nil => simp [stripStars]
  | cons c rest =>
    by_cases hc : c = '*'
    · simp [stripStars, hc] at h
    · simp [stripStars, hc]

theorem stripStars_lt_of_star {p : List Char} (h : (stripStars p).1 = true) :
    (stripStars p).2.length < p.length := by
  cases p with
  | nil => simp [stripStars] at h
  | cons c rest =>
    by_cases hc : c = '*'
    · have := stripStars_le rest
      simp [stripStars, hc]
      omega
    · simp [stripStars, hc] at h

theorem scanChunkAux_le_aux : ∀ (n : Nat) (l : List Char), l.length = n → ∀ (b : Bool),
    (scanChunkAux l b).2.length ≤ l.length := by
  intro n
  induction n using Nat.strong_induction_on with
  | _ n ih =>
    intro l hn b
    match l with
    | [] => simp [scanChunkAux]
    | c :: rest =>
      rw [scanChunkAux.eq_def]
      by_cases hbs : c = '\\'
      · cases rest with
        | nil => simp [hbs]
        | cons d rest2 =>
          have := ih rest2.length (by subst hn; simp; omega) rest2 rfl b
          simp [hbs]
          omega
      · have hrec : ∀ b', (scanChunkAux rest b').2.length ≤ rest.length := by
          intro b'
          exact ih rest.length (by subst hn; simp) rest rfl b'
        by_cases hlb : c = '['
        · have := hrec true
          simp [hbs, hlb]
          omega
        · by_cases hrb : c = ']'
          · have := hrec false
            simp [hbs, hlb, hrb]
            omega
          · by_cases hst : c = '*'
            · cases b with
              | true =>
                have := hrec true
                simp [hbs, hlb, hrb, hst]
                omega
              | false => simp [hbs, hlb, hrb, hst]
            · have := hrec b
              simp [hbs, hlb, hrb, hst]
              omega

theorem scanChunkAux_le (l : List Char) (b : Bool) :
    (scanChunkAux l b).2.length ≤ l.length :=
  scanChunkAux_le_aux l.length l rfl b

theorem scanChunkAux_lt {c : Char} (rest : List Char) (b : Bool) (hc : c ≠ '*') :
    (scanChunkAux (c :: rest) b).2.length < rest.length + 1 := by
  rw [scanChunkAux.eq_def]
  by_cases hbs : c = '\\'
  · cases rest with
    | nil => simp [hbs]
    | cons d rest2 =>
      have := scanChunkAux_le rest2 b
      simp [hbs]
      omega
  · by_cases hlb : c = '['
    · have := scanChunkAux_le rest true
      simp [hbs, hlb]
      omega
    · by_cases hrb : c = ']'
      · have := scanChunkAux_le rest false
        simp [hbs, hlb, hrb]
        omega
      · have := scanChunkAux_le rest b
        simp [hbs, hlb, hrb, hc]
        omega

theorem scanChunk_rest_lt {p : List Char} (hp : p ≠ []) :
    (scanChunk p).2.2.length < p.length := by
  cases hst : (stripStars p).1 with
  | true =>
    have h1 := stripStars_lt_of_star hst
    have h2 := scanChunkAux_le (stripStars p).2 false
    simp only [scanChunk]
    omega
  | false =>
    have heq := stripStars_eq_of_not_star hst
    cases p with
    | nil => exact absurd rfl hp
    | cons c rest =>
      have hc : c ≠ '*' := by
        intro hx
        subst hx
        simp [stripStars] at hst
      simp only [scanChunk, heq]
      exact scanChunkAux_lt rest false hc

def validateRest : List Char → Except Unit Bool
  | [] => .ok false
  | p@(_ :: _) =>
    match matchChunk (scanChunk p).2.1 [] false with
    | .error _ => .error ()
    | .ok _ => validateRest (scanChunk p).2.2
termination_by p => p.length
decreasing_by
  subst_vars
  exact scanChunk_rest_lt (by simp)

def goMatchLoop : List Char → List Char → Except Unit Bool
  | [], name => .ok name.isEmpty
  | p@(_ :: _), name =>
    let star := (scanChunk p).1
    let chunk := (scanChunk p).2.1
    let rest := (scanChunk p).2.2
    if star ∧ chunk = [] then .ok (!(name.contains '/'))
    else
      match matchChunk chunk name false with
      | .error _ => .error ()
      | .ok r =>
        match (match r with
               | some t => if t = [] ∨ rest ≠ [] then some t else none
               | none => none) with
        | some t => goMatchLoop rest t
        | none =>
          match (if star then starLoop chunk (rest = []) name else .ok none) with
          | .error _ => .error ()
          | .ok (some t) => goMatchLoop rest t
          | .ok none => validateRest rest
termination_by p _ => p.length
decreasing_by
  all_goals subst_vars
  all_goals exact scanChunk_rest_lt (by simp)

def goMatch (pattern name : String) : Except Unit Bool :=
  goMatchLoop pattern.data name.data

/-! ### Suffix-pattern matching (gs/command.go) -/

/-- gs/command.go `matchesBracePattern`. -/
def matchesBracePattern (filename pattern : String) : Bool :=
  let start := indexOfChar pattern '\x7b'
  let endI := indexOfChar pattern '\x7d'
  if start = -1 ∨ endI = -1 ∨ start ≥ endI then false
  else
    let s := start.toNat
    let e := endI.toNat
    let pre : String := ⟨pattern.data.take s⟩
    let suf : String := ⟨pattern.data.drop (e + 1)⟩
    let options := splitOnChar ',' ⟨(pattern.data.drop (s + 1)).take (e - (s + 1))⟩
    options.any (fun opt => goHasSuffix filename (pre ++ goTrimSpace opt ++ suf))

/-- gs/command.go `matchesSuffixPattern`. -/
def matchesSuffixPattern (filename pattern : String) : Bool :=
  let filename := goToLower filename
  let pattern := goToLower pattern
  if containsChar pattern '\x7b' && containsChar pattern '\x7d' then
    matchesBracePattern filename pattern
  else if containsAnyOf pattern ['*', '?', '[', ']'] then
    let fullPattern := "*" ++ pattern
    match goMatch fullPattern filename with
    | .error _ => goHasSuffix filename pattern
    | .ok matched => matched
  else goHasSuffix filename pattern

/-! ### The selection sort of `getFieldValues`

The Go code sorts the collected value slice in place with a nested loop
(`for i ...; for j := i+1 ...; swap if result[i] > result[j]`).  One full
inner loop moves the minimum of the remaining slice to position `i`, each
displaced element taking the position of the element that displaced it;
`selectMin` is exactly that inner loop and `selSort` the outer one. -/

/-- One inner loop of the sort in `getFieldValues`: the running minimum
against the remaining elements, swapping whenever the current minimum is
greater. -/
def selectMin (x : String) : List String → String × List String
  | [] => (x, [])
  | y :: ys =>
    if y < x then
      let p := selectMin y ys
      (p.1, x :: p.2)
    else
      let p := selectMin x ys
      (p.1, y :: p.2)

theorem selectMin_length (x : String) (xs : List String) :
    (selectMin x xs).2.length = xs.length := by
  induction xs generalizing x with
  | nil => simp [selectMin]
  | cons y ys ih =>
    by_cases h : y < x <;> simp [selectMin, h, ih]

/-- The outer loop of the sort in `getFieldValues`. -/
def selSort : List String → List String
  | [] => []
  | x :: xs =>
    (selectMin x xs).1 :: selSort (selectMin x xs).2
termination_by l => l.length
decreasing_by
  simp [selectMin_length]

/-! ### Tabular-file reading and caches (gs/command.go) -/

/-- The filesystem model: a file name maps to the list of lines the Go
`bufio.Scanner` would produce, `none` when `os.Open` fails. -/
abbrev Fs := String → Option (List String)

/-- The directory model: a directory name maps to its entries
(name, isDir) in directory order, `none` when `os.ReadDir` fails. -/
abbrev Dirs := String → Option (List (String × Bool))

/-- gs/command.go `GSCommand` (the completer/generator collaborators are out
of core scope). -/
structure GSCommand where
  fields : List FieldMeta
  fieldCache : List (String × List String) := []
  contentCache : List (String × List (String × List String)) := []
  scanDepth : Nat := 100

/-- gs/command.go `NewCommand` on an already-reflected field list: empty
caches and the default scan depth of 100 lines. -/
def NewCommand (fields : List FieldMeta) : GSCommand := { fields := fields }

/-- The text of the `os.Open` failure wrapped by the readers (modelled: the
operating-system error string is outside the repository). -/
def osOpenErrMsg (filename : String) : String :=
  "open " ++ filename ++ ": no such file or directory"

/-- One character of the Go alphanumeric test in `parseTSVHeader`. -/
def isAlnumGo (r : Char) : Bool :=
  decide (('a' ≤ r ∧ r ≤ 'z') ∨ ('A' ≤ r ∧ r ≤ 'Z') ∨ ('0' ≤ r ∧ r ≤ '9'))

/-- gs/command.go `parseTSVHeader`. -/
def parseTSVHeader (header : String) : List String :=
  let h : String := ⟨header.data.dropWhile (fun r => !(isAlnumGo r))⟩
  let fields := if containsChar h '\t' then splitOnChar '\t' h else splitOnChar ',' h
  (fields.map goTrimSpace).filter (fun f => f != "")

/-- gs/command.go `getFields`: the field-name cache, populated from the first
line of the file on a miss. -/
def getFields (cmd : GSCommand) (fs : Fs) (filename : String) :
    Except String (List String) × GSCommand :=
  match assocGet cmd.fieldCache filename with
  | some fields => (.ok fields, cmd)
  | none =>
    match fs filename with
    | none => (.error ("opening file " ++ filename ++ ": " ++ osOpenErrMsg filename), cmd)
    | some [] => (.error ("file " ++ filename ++ " is empty"), cmd)
    | some (headerLine :: _) =>
      let fields := parseTSVHeader headerLine
      (.ok fields, { cmd with fieldCache := assocSet cmd.fieldCache filename fields })

/-- The per-line body of the scan loop in `getFieldValues`: split on tabs,
fall back to commas when too short, take the field column, trim, drop
empties. -/
def rowValue (fieldIndex : Nat) (line : String) : Option String :=
  let parts := splitOnChar '\t' line
  let parts := if parts.length ≤ fieldIndex then splitOnChar ',' line else parts
  match parts[fieldIndex]? with
  | none => none
  | some raw =>
    let v := goTrimSpace raw
    if v = "" then none else some v

/-- The value-set accumulation of the scan loop in `getFieldValues`.  Go
collects into a `map[string]bool` whose iteration order is unspecified; the
subsequent sort makes the output independent of that order, so first
occurrence order is a sound model of the set. -/
def collectUnique (fieldIndex : Nat) (lines : List String) : List String :=
  lines.foldl (fun values line =>
    match rowValue fieldIndex line with
    | some v => if values.contains v then values else values ++ [v]
    | none => values) []

/-- gs/command.go `getFieldValues`: cached distinct values of one field over
at most `scanDepth` data rows, sorted.  On a cache miss the Go code first
ensures `contentCache[filename]` exists, then opens the file; a field name
missing from the header yields an empty result that is *not* written to the
cache. -/
def getFieldValues (cmd : GSCommand) (fs : Fs) (filename fieldName : String) :
    Except String (List String) × GSCommand :=
  match assocGet cmd.contentCache filename >>= fun fc => assocGet fc fieldName with
  | some values => (.ok values, cmd)
  | none =>
    let cmd := if (assocGet cmd.contentCache filename).isSome then cmd
      else { cmd with contentCache := assocSet cmd.contentCache filename [] }
    match fs filename with
    | none => (.error ("opening file " ++ filename ++ ": " ++ osOpenErrMsg filename), cmd)
    | some [] => (.error ("file " ++ filename ++ " is empty"), cmd)
    | some (headerLine :: dataLines) =>
      let fields := parseTSVHeader headerLine
      match fields.findIdx? (fun f => f == fieldName) with
      | none => (.ok [], cmd)
      | some fieldIndex =>
        let result := selSort (collectUnique fieldIndex (dataLines.take cmd.scanDepth))
        let fileCache := (assocGet cmd.contentCache filename).getD []
        (.ok result, { cmd with contentCache := (assocSet cmd.contentCache filename
          (assocSet fileCache fieldName result)) })

/-! ### Completion (gs/command.go) -/

/-- gs/command.go `completeField`: field names of the file filtered by
case-insensitive prefix; errors from `getFields` propagate. -/
def completeField (cmd : GSCommand) (fs : Fs) (filename part : String) :
    Except String (List String) × GSCommand :=
  match getFields cmd fs filename with
  | (.error e, cmd') => (.error e, cmd')
  | (.ok fields, cmd') =>
    let partL := goToLower part
    (.ok (fields.filter (fun f => goHasPre (goToLower f) partL)), cmd')

/-- gs/command.go `completeContent`: distinct field values filtered by
case-insensitive prefix; errors from `getFieldValues` degrade to an empty
list ("Return empty on error rather than failing"). -/
def completeContent (cmd : GSCommand) (fs : Fs) (filename fieldName part : String) :
    Except String (List String) × GSCommand :=
  match getFieldValues cmd fs filename fieldName with
  | (.error _, cmd') => (.ok [], cmd')
  | (.ok values, cmd') =>
    let partL := goToLower part
    (.ok (values.filter (fun v => goHasPre (goToLower v) partL)), cmd')

/-- gs/command.go `completeEnum`. -/
def completeEnum (fieldMeta : Option FieldMeta) (part : String) : List String :=
  match fieldMeta with
  | none => []
  | some meta =>
    if meta.enum.length = 0 then []
    else
      let partL := goToLower part
      meta.enum.filter (fun e => goHasPre (goToLower e) partL)

/-- gs/command.go `completeFlags`: every declared switch in `-` and `+`
spelling followed by the reserved built-ins, filtered by case-insensitive
prefix. -/
def completeFlags (fields : List FieldMeta) (part : String) : List String :=
  let partL := goToLower part
  let fieldFlags := fields.foldl (fun ms field =>
    let flag := parseFlagName field.name
    let ms := if goHasPre (goToLower flag) partL then ms ++ [flag] else ms
    let plusFlag := "+" ++ dropStr 1 flag
    if goHasPre (goToLower plusFlag) partL then ms ++ [plusFlag] else ms) []
  ["-help", "-man", "-complete", "-bash-completion"].foldl (fun ms flag =>
    if goHasPre (goToLower flag) partL then ms ++ [flag] else ms) fieldFlags

/-- gs/command.go `findTSVFile`, iterating over the indexed argument list. -/
def findTSVFileLoop (args : List String) : List (Nat × String) → String
  | [] => ""
  | (i, arg) :: rest =>
    let prev := if i > 0 then args.getD (i - 1) "" else ""
    if (decide (i > 0) && (prev == "-argv" || goHasSuffix prev "-file"))
        && (goHasSuffix arg ".tsv" || goHasSuffix arg ".csv") then arg
    else if (goHasSuffix arg ".tsv" || goHasSuffix arg ".csv") && !(goHasPre arg "-")
        && (decide (i = 0) || !(goHasPre prev "-") || prev == "-" || prev == "+") then arg
    else findTSVFileLoop args rest

/-- gs/command.go `findTSVFile`. -/
def findTSVFile (args : List String) : String := findTSVFileLoop args args.enum

/-- The downward scan of gs/command.go `findLastFlag` (`i` counts down from
`pos - 1`; an index at or past the end is skipped as in the Go guard). -/
def findLastFlagScan (fields : List FieldMeta) (args : List String) : Nat →
    Option (Nat × FieldMeta)
  | 0 => none
  | i + 1 =>
    if i ≥ args.length then findLastFlagScan fields args i
    else
      let a := args.getD i ""
      if goHasPre a "-" || goHasPre a "+" then
        let normalizedFlag :=
          if goHasPre a "+" && decide (a.length > 1) then "-" ++ dropStr 1 a
          else if goHasPre a "-" && decide (a.length > 1) then a
          else ""
        if normalizedFlag = "" then none
        else
          match findFieldMeta fields normalizedFlag with
          | some meta => some (i, meta)
          | none => none
      else findLastFlagScan fields args i

/-- gs/command.go `findLastFlag`, including its position clamp (the Go
`maxIndex` arithmetic is over `int`, hence the cast). -/
def findLastFlag (fields : List FieldMeta) (args : List String) (pos : Nat) :
    Option (Nat × FieldMeta) :=
  let posC := if (pos : Int) > (args.length : Int) - 1 then args.length else pos
  findLastFlagScan fields args posC

/-- gs/command.go `shouldUseBareFileCompletion`. -/
def shouldUseBareFileCompletion (args : List String) (pos : Nat) : Bool :=
  if pos = 0 then true
  else if pos - 1 < args.length then
    let prev := args.getD (pos - 1) ""
    prev == "+" || prev == "-" || (!(goHasPre prev "-") && !(goHasPre prev "+"))
  else false

/-- First field with the given struct-field name (the `Argv` lookup loop in
`analyzeCompletionContext`). -/
def findFieldNamed : List FieldMeta → String → Option FieldMeta
  | [], _ => none
  | m :: rest, n => if m.name = n then some m else findFieldNamed rest n

/-- gs/command.go `CompletionType`. -/
inductive CompletionType where
  | CompletionFlag | CompletionField | CompletionContent
  | CompletionFile | CompletionMultiArg | CompletionEnum
deriving DecidableEq, Repr

open CompletionType

/-- gs/command.go `CompletionContext`. -/
structure CompletionContext where
  ctype : CompletionType
  Current : String := ""
  TSVFile : String := ""
  FieldName : String := ""
  ArgumentIndex : Nat := 0
  argSpec : Option ArgumentSpec := none
  fieldMeta : Option FieldMeta := none

/-- gs/command.go `analyzeCompletionContext`. -/
def analyzeCompletionContext (fields : List FieldMeta) (args : List String) (pos : Nat) :
    CompletionContext :=
  let current := if pos < args.length then args.getD pos "" else ""
  if goHasPre current "-" || goHasPre current "+" then
    { ctype := CompletionFlag, Current := current }
  else
    let tsvFile := findTSVFile args
    match findLastFlag fields args pos with
    | none =>
      if shouldUseBareFileCompletion args pos then
        match findFieldNamed fields "Argv" with
        | some m =>
          { ctype := CompletionFile, Current := current, TSVFile := tsvFile,
            fieldMeta := some m }
        | none => { ctype := CompletionFile, Current := current, TSVFile := tsvFile }
      else { ctype := CompletionFile, Current := current, TSVFile := tsvFile }
    | some (flagPos, meta) =>
      let argIndex := pos - flagPos - 1
      let base : CompletionContext :=
        { ctype := CompletionFile, Current := current, TSVFile := tsvFile,
          fieldMeta := some meta }
      match meta.ftype with
      | FieldTypeField =>
        if argIndex = 0 then { base with ctype := CompletionField } else base
      | FieldTypeString =>
        if argIndex = 0 ∧ meta.enum.length > 0 then { base with ctype := CompletionEnum }
        else base
      | FieldTypeMulti =>
        if argIndex < meta.args.length then
          let fieldName :=
            if argIndex > 0
                ∧ (meta.args.getD (argIndex - 1) ⟨"", ArgumentTypeString⟩).type
                    = ArgumentTypeField
                ∧ flagPos + argIndex < args.length then
              args.getD (flagPos + argIndex) ""
            else ""
          { base with
              ctype := CompletionMultiArg
              ArgumentIndex := argIndex
              argSpec := meta.args[argIndex]?
              FieldName := fieldName }
        else base
      | _ => base

/-- Model of Go `filepath.Dir` for the slash-separated relative paths in
scope (`Clean` normalisation of dot segments is not modelled). -/
def filepathDir (p : String) : String :=
  match p.data.reverse.findIdx? (· == '/') with
  | none => "."
  | some j =>
    let i := p.data.length - 1 - j
    if i = 0 then "/" else ⟨p.data.take i⟩

/-- Model of Go `filepath.Base` for the paths in scope. -/
def filepathBase (p : String) : String :=
  match p.data.reverse.findIdx? (· == '/') with
  | none => p
  | some j => ⟨p.data.drop (p.data.length - j)⟩

/-- The per-entry loop of gs/command.go `completeFilesWithSuffix`,
accumulating TSV files, other files and directories in directory order. -/
def completeFilesLoop (dir pattern : String) (fieldMeta : Option FieldMeta) :
    List (String × Bool) → List String × List String × List String
  | [] => ([], [], [])
  | (nm, isDir) :: rest =>
    let acc := completeFilesLoop dir pattern fieldMeta rest
    if goHasPre nm "." && !(goHasPre pattern ".") then acc
    else if !(goHasPre (goToLower nm) (goToLower pattern)) then acc
    else
      let fullPath := if dir = "." then nm else dir ++ "/" ++ nm
      if isDir then (acc.1, acc.2.1, (fullPath ++ "/") :: acc.2.2)
      else if (match fieldMeta with
               | some meta => meta.suffix != "" && !(matchesSuffixPattern nm meta.suffix)
               | none => false) then acc
      else if goHasSuffix (goToLower nm) ".tsv" then (fullPath :: acc.1, acc.2.1, acc.2.2)
      else (acc.1, fullPath :: acc.2.1, acc.2.2)

/-- gs/command.go `completeFilesWithSuffix`: directory listing filtered by
prefix and optional suffix pattern; an unreadable directory yields an empty
list rather than an error. -/
def completeFilesWithSuffix (dirs : Dirs) (part : String) (fieldMeta : Option FieldMeta) :
    Except String (List String) :=
  let dirPat : String × String :=
    if goHasSuffix part "/" then (part, "")
    else if containsChar part '/' then (filepathDir part, filepathBase part)
    else (".", part)
  match dirs dirPat.1 with
  | none => .ok []
  | some entries =>
    let t := completeFilesLoop dirPat.1 dirPat.2 fieldMeta entries
    .ok (t.1 ++ t.2.1 ++ t.2.2)

/-- gs/command.go `completeFiles`. -/
def completeFiles (dirs : Dirs) (part : String) : Except String (List String) :=
  completeFilesWithSuffix dirs part none

/-- gs/command.go `completeMultiArgument`. -/
def completeMultiArgument (cmd : GSCommand) (fs : Fs) (dirs : Dirs)
    (context : CompletionContext) : Except String (List String) × GSCommand :=
  match context.argSpec with
  | none => (completeFiles dirs context.Current, cmd)
  | some spec =>
    match spec.type with
    | ArgumentTypeField =>
      if context.TSVFile ≠ "" then completeField cmd fs context.TSVFile context.Current
      else (.ok [], cmd)
    | ArgumentTypeContent =>
      if context.TSVFile ≠ "" ∧ context.FieldName ≠ "" then
        completeContent cmd fs context.TSVFile context.FieldName context.Current
      else (.ok [], cmd)
    | ArgumentTypeFile => (completeFiles dirs context.Current, cmd)
    | _ => (.ok [], cmd)

/-- gs/command.go `complete`: classify the cursor position and dispatch. -/
def complete (cmd : GSCommand) (fs : Fs) (dirs : Dirs) (args : List String) (pos : Nat) :
    Except String (List String) × GSCommand :=
  let context := analyzeCompletionContext cmd.fields args pos
  match context.ctype with
  | CompletionFlag => (.ok (completeFlags cmd.fields context.Current), cmd)
  | CompletionField => completeField cmd fs context.TSVFile context.Current
  | CompletionContent => completeContent cmd fs context.TSVFile context.FieldName context.Current
  | CompletionMultiArg => completeMultiArgument cmd fs dirs context
  | CompletionEnum => (.ok (completeEnum context.fieldMeta context.Current), cmd)
  | CompletionFile => (completeFilesWithSuffix dirs context.Current context.fieldMeta, cmd)

/-! ### Evaluated field metadata of the concrete configurations -/

/-- The `Y` descriptor of the chart configuration, as parsed. -/
def c1YMeta : FieldMeta :=
  { name := "Y", ftype := FieldTypeField, scope := ScopeLocal, mode := ModeList,
    help := "Use field for Y axis" }

/-- The `Right` descriptor of the chart configuration, as parsed. -/
def c1RightMeta : FieldMeta :=
  { name := "Right", ftype := FieldTypeFlag, scope := ScopeLocal, mode := ModeLast,
    help := "Use right-hand scale" }

theorem c1Fields_eq : c1Fields = [c1YMeta, c1RightMeta] := rfl

/-- The `Type` descriptor of `TestCompletionConfig`, as parsed. -/
def typeMeta : FieldMeta :=
  { name := "Type", ftype := FieldTypeString, scope := ScopeGlobal, mode := ModeLast,
    defaultValue := some (.str "bar"), help := "Type field", enum := ["bar", "line", "area"] }

/-- The `Match` descriptor of `TestCompletionConfig`, as parsed. -/
def matchMeta : FieldMeta :=
  { name := "Match", ftype := FieldTypeMulti, scope := ScopeLocal, mode := ModeList,
    args := [⟨"field", ArgumentTypeField⟩, ⟨"content", ArgumentTypeContent⟩],
    help := "Match conditions" }

theorem findFieldMeta_type : findFieldMeta testCompletionFields "-type" = some typeMeta := rfl

theorem findFieldMeta_match : findFieldMeta testCompletionFields "-match" = some matchMeta := rfl

/-! ### C1: clause splitting at standalone separators -/

/-- **C1.** Standalone `+` closes the current clause and begins a negated
one, standalone `-` begins a positive one (the scanning-loop equations hold
for every state), and on the spec's test vector with `Y` a per-clause list
field and `Right` a per-clause flag, parsing yields exactly the two claimed
clauses in source order: `{Y:["cpu"]}` positive, then `{Y:["disk"],
Right:true}` negated. -/
theorem c1_clause_split :
    (∀ (fields : List FieldMeta) (rest : List String) (clauses : List ClauseSet)
        (current : ClauseSet) (global : GoMap),
      parseArgsLoop fields ("+" :: rest) clauses current global
        = parseArgsLoop fields rest (clauses ++ [current]) ⟨[], true⟩ global) ∧
    (∀ (fields : List FieldMeta) (rest : List String) (clauses : List ClauseSet)
        (current : ClauseSet) (global : GoMap),
      parseArgsLoop fields ("-" :: rest) clauses current global
        = parseArgsLoop fields rest (clauses ++ [current]) ⟨[], false⟩ global) ∧
    Parse c1Fields ["-y", "cpu", "+", "-y", "disk", "-right"] =
      .ok [⟨[("Y", GoVal.list [GoVal.str "cpu"])], false⟩,
           ⟨[("Y", GoVal.list [GoVal.str "disk"]), ("Right", GoVal.bool true)], true⟩] := by
  refine ⟨fun fields rest clauses current global => ?_,
    fun fields rest clauses current global => ?_, ?_⟩
  · rw [parseArgsLoop]
    simp
  · rw [parseArgsLoop]
    simp
  · simp +decide [Parse, parseArgsLoop, parseFlagWithNegation, findFieldMeta, c1Fields_eq,
      c1YMeta, c1RightMeta, goHasPre, goHasSuffix, parseFlagName, goToLower, asciiLower,
      flagNameAux, dropStr, withTarget, storeByMode, assocGet, assocSet, applyGlobalFields,
      applyDefaults, parseValueWithValidation, parseValue, getStringSlice]

/-! ### C3: enum validation at parse time -/

/-- **C3.** A text-kind switch with declared enumerated values rejects a
value outside the enumeration at the very token that carries it — the
token-level parser itself produces the error, whatever follows, so the check
cannot be deferred — with a message listing exactly `bar, line, area`; a
value inside the enumeration is accepted. -/
theorem c3_enum_checked_at_parse :
    (∀ (v : String), v ∉ (["bar", "line", "area"] : List String) →
      ∀ (rest : List String) (clause : ClauseSet) (global : GoMap) (negated : Bool),
        parseFlagWithNegation testCompletionFields ("-type" :: v :: rest) clause global negated
          = .error ("parsing value for -type: invalid value '" ++ v
              ++ "', must be one of: bar, line, area")) ∧
    (∀ (v : String), v ∉ (["bar", "line", "area"] : List String) →
      ∀ (rest : List String),
        Parse testCompletionFields ("-type" :: v :: rest)
          = .error ("parsing value for -type: invalid value '" ++ v
              ++ "', must be one of: bar, line, area")) ∧
    (∀ v ∈ (["bar", "line", "area"] : List String),
      Parse testCompletionFields ["-type", v] = .ok [⟨[("Type", GoVal.str v)], false⟩]) := by
  have hflag : ∀ (v : String), v ∉ (["bar", "line", "area"] : List String) →
      ∀ (rest : List String) (clause : ClauseSet) (global : GoMap) (negated : Bool),
      parseFlagWithNegation testCompletionFields ("-type" :: v :: rest) clause global negated
        = .error ("parsing value for -type: invalid value '" ++ v
            ++ "', must be one of: bar, line, area") := by
    intro v hv rest clause global negated
    simp +decide [parseFlagWithNegation, findFieldMeta_type, typeMeta,
      parseValueWithValidation, parseValue, hv]
    simp only [show String.intercalate ", " ["bar", "line", "area"] = "bar, line, area"
      from by decide]
    try simp [String.append_assoc]
    try simp [← String.append_assoc]
  refine ⟨hflag, fun v hv rest => ?_, ?_⟩
  · rw [Parse, parseArgsLoop]
    have hpre : goHasPre ("-type") "+" = false := by decide
    have hpre2 : goHasPre ("-type") "-" = true := by decide
    simp +decide [hpre, hpre2, hflag v hv]
  · intro v hv
    fin_cases hv <;>
      simp +decide [Parse, parseArgsLoop, parseFlagWithNegation, findFieldMeta,
        testCompletionFields, fieldsOfTag, parseFieldTag, parseTagParts, parseTagPartsAux,
        parseFieldTagLoop, parseFieldType, parseFieldScope, parseFieldMode, parseKeyValue,
        splitN2, goTrimSpace, containsChar, goHasPre, goHasSuffix, parseFlagName, goToLower,
        asciiLower, flagNameAux, parseEnumValues, parseDefaultValue, splitOnChar,
        splitOnCharAux, withTarget, storeByMode, assocGet, assocSet, applyGlobalFields,
        applyDefaults, parseValueWithValidation, parseValue, getStringSlice, goIsSpace,
        parseArgumentSpecs, goParseBool]

/-- Witness for C3 at the concrete rejected value `purple` and the accepted
value `line`. -/
theorem c3_enum_checked_at_parse_witness :
    parseFlagWithNegation testCompletionFields ["-type", "purple"] ⟨[], false⟩ [] false
        = .error "parsing value for -type: invalid value 'purple', must be one of: bar, line, area"
      ∧ Parse testCompletionFields ["-type", "line"]
        = .ok [⟨[("Type", GoVal.str "line")], false⟩] := by
  constructor
  · have h := c3_enum_checked_at_parse.1 "purple" (by decide) [] ⟨[], false⟩ [] false
    simpa using h
  · exact c3_enum_checked_at_parse.2.2 "line" (by decide)

/-! ### C5: `+switch` parses like `-switch` with a negation wrapper -/

/-- **C5.** For every declared switch, parsing with the negation marker is
the positive parse with the stored value wrapped: a boolean flag parses
identically under both markers (the flag is set true, no distinct negated
form), a single-argument switch stores `{value, _negated:true}` instead of
the bare value, and a multi-argument switch's value map gains a
`_negated:true` entry — everything else (tokens consumed, target scope,
list/last mode handling) is unchanged. -/
theorem c5_negated_switch_equivalence :
    (∀ (fields : List FieldMeta) (name : String) (rest : List String) (clause : ClauseSet)
        (global : GoMap) (meta : FieldMeta),
      findFieldMeta fields name = some meta → meta.ftype = FieldTypeFlag →
        parseFlagWithNegation fields (name :: rest) clause global true
          = parseFlagWithNegation fields (name :: rest) clause global false) ∧
    (∀ (fields : List FieldMeta) (name value : String) (rest : List String)
        (clause : ClauseSet) (global : GoMap) (meta : FieldMeta) (pv : GoVal),
      findFieldMeta fields name = some meta →
      meta.ftype ≠ FieldTypeFlag → meta.ftype ≠ FieldTypeMulti →
      parseValueWithValidation value meta = .ok pv →
        parseFlagWithNegation fields (name :: value :: rest) clause global true
            = .ok (2, withTarget meta clause global (storeByMode meta.mode meta.name
                (GoVal.map [("value", pv), ("_negated", GoVal.bool true)])))
          ∧ parseFlagWithNegation fields (name :: value :: rest) clause global false
            = .ok (2, withTarget meta clause global (storeByMode meta.mode meta.name pv))) ∧
    (∀ (fields : List FieldMeta) (name : String) (rest : List String) (clause : ClauseSet)
        (global : GoMap) (meta : FieldMeta) (m : GoMap),
      findFieldMeta fields name = some meta →
      meta.ftype = FieldTypeMulti → meta.args.length ≠ 0 →
      meta.args.length ≤ rest.length →
      buildArgValues name (meta.args.zip rest) = .ok m →
        parseFlagWithNegation fields (name :: rest) clause global true
            = .ok (meta.args.length + 1, withTarget meta clause global
                (storeByMode meta.mode meta.name
                  (GoVal.map (m ++ [("_negated", GoVal.bool true)]))))
          ∧ parseFlagWithNegation fields (name :: rest) clause global false
            = .ok (meta.args.length + 1, withTarget meta clause global
                (storeByMode meta.mode meta.name (GoVal.map m)))) := by
  refine ⟨?_, ?_, ?_⟩
  · intro fields name rest clause global meta hfind hflag
    simp [parseFlagWithNegation, hfind, hflag]
  · intro fields name value rest clause global meta pv hfind hnf hnm hpv
    cases hft : meta.ftype <;> simp_all [parseFlagWithNegation, hfind, hpv]
  · intro fields name rest clause global meta m hfind hft hne hlen hbuild
    have hcond : ¬((name :: rest).length < meta.args.length + 1) := by
      simp only [List.length_cons]
      omega
    simp [parseFlagWithNegation, hfind, hft, hne, hcond, hbuild]
    exact hlen

/-- Witness for C5: the boolean flag `-right` of the chart configuration,
the single-argument list-mode switch `-y` at value `cpu`, and the
multi-argument switch `-match` at `cpu .*`, each in negated and positive
form. -/
theorem c5_negated_switch_equivalence_witness :
    (parseFlagWithNegation c1Fields ["-right"] ⟨[], false⟩ [] true
      = parseFlagWithNegation c1Fields ["-right"] ⟨[], false⟩ [] false) ∧
    (parseFlagWithNegation c1Fields ["-y", "cpu"] ⟨[], false⟩ [] true
        = .ok (2, withTarget c1YMeta ⟨[], false⟩ [] (storeByMode c1YMeta.mode c1YMeta.name
            (GoVal.map [("value", GoVal.str "cpu"), ("_negated", GoVal.bool true)])))
      ∧ parseFlagWithNegation c1Fields ["-y", "cpu"] ⟨[], false⟩ [] false
        = .ok (2, withTarget c1YMeta ⟨[], false⟩ []
            (storeByMode c1YMeta.mode c1YMeta.name (GoVal.str "cpu")))) ∧
    (parseFlagWithNegation testCompletionFields ["-match", "cpu", ".*"] ⟨[], false⟩ [] true
        = .ok (matchMeta.args.length + 1, withTarget matchMeta ⟨[], false⟩ []
            (storeByMode matchMeta.mode matchMeta.name
              (GoVal.map ([("field", GoVal.str "cpu"), ("content", GoVal.str ".*")]
                ++ [("_negated", GoVal.bool true)]))))
      ∧ parseFlagWithNegation testCompletionFields ["-match", "cpu", ".*"] ⟨[], false⟩ [] false
        = .ok (matchMeta.args.length + 1, withTarget matchMeta ⟨[], false⟩ []
            (storeByMode matchMeta.mode matchMeta.name
              (GoVal.map [("field", GoVal.str "cpu"), ("content", GoVal.str ".*")])))) :=
  ⟨c5_negated_switch_equivalence.1 c1Fields "-right" [] ⟨[], false⟩ [] c1RightMeta rfl rfl,
   c5_negated_switch_equivalence.2.1 c1Fields "-y" "cpu" [] ⟨[], false⟩ [] c1YMeta
     (GoVal.str "cpu") rfl (by decide) (by decide) rfl,
   c5_negated_switch_equivalence.2.2 testCompletionFields "-match" ["cpu", ".*"] ⟨[], false⟩ []
     matchMeta [("field", GoVal.str "cpu"), ("content", GoVal.str ".*")]
     findFieldMeta_match rfl (by decide) (by decide) rfl⟩

/-! ### C7: descriptor-construction failures -/

/-- A tag token free of separators, key markers, braces and whitespace: the
shape under which a single descriptor token is passed through unchanged by
the brace-aware splitter and by trimming. -/
def plainTagToken (t : String) : Prop :=
  t ≠ "" ∧ containsChar t ',' = false ∧ containsChar t '=' = false ∧
  containsChar t '\x7b' = false ∧ containsChar t '\x7d' = false ∧
  t.data.all (fun c => !(goIsSpace c)) = true

instance (t : String) : Decidable (plainTagToken t) := by
  unfold plainTagToken
  infer_instance

theorem dropWhile_eq_self_of_all {l : List Char} {p : Char → Bool}
    (h : l.all (fun c => !(p c)) = true) : l.dropWhile p = l := by
  cases l with
  | nil => rfl
  | cons c rest =>
    simp only [List.all_cons, Bool.and_eq_true, Bool.not_eq_true'] at h
    simp [List.dropWhile_cons, h.1]

theorem goTrimSpace_eq_self {t : String} (h : t.data.all (fun c => !(goIsSpace c)) = true) :
    goTrimSpace t = t := by
  unfold goTrimSpace
  rw [dropWhile_eq_self_of_all h, dropWhile_eq_self_of_all (by simpa using h)]
  simp

theorem parseTagPartsAux_plain : ∀ (l cur : List Char),
    l.contains ',' = false → l.contains '\x7b' = false → l.contains '\x7d' = false →
    parseTagPartsAux l 0 cur = if (cur ++ l).isEmpty then [] else [⟨cur ++ l⟩] := by
  intro l
  induction l with
  | nil =>
    intro cur _ _ _
    simp only [parseTagPartsAux, List.append_nil, List.isEmpty_iff]
    rcases cur with _ | ⟨c, cs⟩ <;> simp
  | cons c rest ih =>
    intro cur hc hb1 hb2
    simp only [List.contains_cons, Bool.or_eq_false_iff] at hc hb1 hb2
    have hcc : c ≠ ',' := by
      intro hx
      subst hx
      simp at hc
    have hcb1 : c ≠ '\x7b' := by
      intro hx
      subst hx
      simp at hb1
    have hcb2 : c ≠ '\x7d' := by
      intro hx
      subst hx
      simp at hb2
    rw [parseTagPartsAux]
    simp only [if_neg hcb1, if_neg hcb2, if_neg hcc]
    rw [ih (cur ++ [c]) hc.2 hb1.2 hb2.2]
    simp

/-- **C7 counterexample.** The claim says a missing multiplicity token fails
descriptor construction; in fact `parseFieldTag "X" "string,global"` (no
multiplicity token at all) succeeds, with the multiplicity defaulting to
overwrite (`last`). -/
theorem c7_missing_mode_token_succeeds :
    parseFieldTag "X" "string,global"
      = .ok { name := "X", ftype := FieldTypeString, scope := ScopeGlobal, mode := ModeLast } :=
  rfl

/-- Characters of a list never equal a character it does not contain. -/
theorem ne_of_contains_false {l : List Char} {c x : Char} (h : l.contains c = false)
    (hx : x ∈ l) : x ≠ c := by
  simp only [List.contains_eq_any_beq, List.any_eq_false] at h
  intro he
  subst he
  have := h x hx
  simp at this

theorem contains_append_chars (l m : List Char) (c : Char) :
    (l ++ m).contains c = (l.contains c || m.contains c) := by
  simp [List.contains_eq_any_beq]

theorem data_isEmpty_false {s : String} (h : s ≠ "") : s.data.isEmpty = false := by
  cases ht : s.data with
  | nil => exact absurd (String.ext ht) h
  | cons c cs => rfl

/-- **C7 (amended).** `parseFieldTag` fails fast at the first offending token
whenever the kind, scope or multiplicity token is present but unknown, or a
key=value token carries an unknown key, and a fully empty tag fails; but a
tag that simply omits the scope or multiplicity token succeeds with the
defaults (`global`, `last`) instead of failing. -/
theorem c7_descriptor_errors_amended :
    (∀ (n : String), parseFieldTag n "" = .error "empty tag") ∧
    (∀ (n t : String), plainTagToken t →
      t ∉ (["string", "field", "file", "number", "flag", "multi"] : List String) →
      parseFieldTag n t = .error ("unknown field type: " ++ t)) ∧
    (∀ (n s : String), plainTagToken s →
      s ∉ (["global", "local"] : List String) →
      parseFieldTag n ("string," ++ s) = .error ("unknown field scope: " ++ s)) ∧
    (∀ (n m : String), plainTagToken m →
      m ∉ (["last", "list"] : List String) →
      parseFieldTag n ("string,global," ++ m) = .error ("unknown field mode: " ++ m)) ∧
    (∀ (n k : String), plainTagToken k →
      k ∉ (["help", "default", "required", "complete", "args", "suffix", "enum"] : List String) →
      parseFieldTag n ("string,global,last," ++ k ++ "=1")
        = .error ("unknown key in tag: " ++ k)) ∧
    (∀ (n : String),
      parseFieldTag n "bogus,badscope,badmode" = .error "unknown field type: bogus") ∧
    (∀ (n : String), parseFieldTag n "string,global"
      = .ok { name := n, ftype := FieldTypeString, scope := ScopeGlobal, mode := ModeLast }) := by
  have hplain : ∀ (t : String), plainTagToken t →
      parseTagParts t = [t] ∧ goTrimSpace t = t ∧ containsChar t '=' = false ∧ t ≠ "" := by
    intro t ⟨hne, hc, he, hb1, hb2, hsp⟩
    refine ⟨?_, goTrimSpace_eq_self hsp, he, hne⟩
    unfold parseTagParts
    rw [parseTagPartsAux_plain t.data [] hc hb1 hb2]
    simp [data_isEmpty_false hne]
  refine ⟨fun n => rfl, ?_, ?_, ?_, ?_, fun n => rfl, fun n => rfl⟩
  · intro n t hp ht
    obtain ⟨hparts, htrim, he, hne⟩ := hplain t hp
    simp only [parseFieldTag, hparts]
    have ht1 : t ≠ "string" := by rintro rfl; simp at ht
    have ht2 : t ≠ "field" := by rintro rfl; simp at ht
    have ht3 : t ≠ "file" := by rintro rfl; simp at ht
    have ht4 : t ≠ "number" := by rintro rfl; simp at ht
    have ht5 : t ≠ "flag" := by rintro rfl; simp at ht
    have ht6 : t ≠ "multi" := by rintro rfl; simp at ht
    simp [parseFieldTagLoop, htrim, hne, he, parseFieldType, ht1, ht2, ht3, ht4, ht5, ht6]
  · intro n s hp hs
    obtain ⟨hparts, htrim, he, hne⟩ := hplain s hp
    obtain ⟨-, hc, -, hb1, hb2, -⟩ := hp
    have hdata : ("string," ++ s).data
        = 's' :: 't' :: 'r' :: 'i' :: 'n' :: 'g' :: ',' :: s.data := by
      have : ("string," ++ s).data = "string,".data ++ s.data := by
        simp [String.data_append]
      simpa using this
    have hs1 : s ≠ "global" := by rintro rfl; simp at hs
    have hs2 : s ≠ "local" := by rintro rfl; simp at hs
    have hparts2 : parseTagParts ("string," ++ s) = ["string", s] := by
      unfold parseTagParts
      rw [hdata]
      simp [parseTagPartsAux, parseTagPartsAux_plain s.data [] hc hb1 hb2,
        data_isEmpty_false hne]
    have e1 : goTrimSpace "string" = "string" := by decide
    have e2 : containsChar "string" '=' = false := by decide
    have e3 : goTrimSpace "global" = "global" := by decide
    have e4 : containsChar "global" '=' = false := by decide
    have e5 : goTrimSpace "last" = "last" := by decide
    have e6 : containsChar "last" '=' = false := by decide
    simp only [parseFieldTag, hparts2]
    simp [parseFieldTagLoop, htrim, hne, he, parseFieldType, parseFieldScope, hs1, hs2,
      e1, e2, e3, e4, e5, e6]
  · intro n m hp hm
    obtain ⟨hparts, htrim, he, hne⟩ := hplain m hp
    obtain ⟨-, hc, -, hb1, hb2, -⟩ := hp
    have hdata : ("string,global," ++ m).data
        = 's' :: 't' :: 'r' :: 'i' :: 'n' :: 'g' :: ',' :: 'g' :: 'l' :: 'o' :: 'b' :: 'a'
          :: 'l' :: ',' :: m.data := by
      have : ("string,global," ++ m).data = "string,global,".data ++ m.data := by
        simp [String.data_append]
      simpa using this
    have hm1 : m ≠ "last" := by rintro rfl; simp at hm
    have hm2 : m ≠ "list" := by rintro rfl; simp at hm
    have hparts2 : parseTagParts ("string,global," ++ m) = ["string", "global", m] := by
      unfold parseTagParts
      rw [hdata]
      simp [parseTagPartsAux, parseTagPartsAux_plain m.data [] hc hb1 hb2,
        data_isEmpty_false hne]
    have e1 : goTrimSpace "string" = "string" := by decide
    have e2 : containsChar "string" '=' = false := by decide
    have e3 : goTrimSpace "global" = "global" := by decide
    have e4 : containsChar "global" '=' = false := by decide
    have e5 : goTrimSpace "last" = "last" := by decide
    have e6 : containsChar "last" '=' = false := by decide
    simp only [parseFieldTag, hparts2]
    simp [parseFieldTagLoop, htrim, hne, he, parseFieldType, parseFieldScope,
      parseFieldMode, hm1, hm2, e1, e2, e3, e4, e5, e6]
  · intro n k hp hk
    obtain ⟨hparts, htrim, he, hne⟩ := hplain k hp
    obtain ⟨-, hc, -, hb1, hb2, hsp⟩ := hp
    have hdata : ("string,global,last," ++ k ++ "=1").data
        = 's' :: 't' :: 'r' :: 'i' :: 'n' :: 'g' :: ',' :: 'g' :: 'l' :: 'o' :: 'b' :: 'a'
          :: 'l' :: ',' :: 'l' :: 'a' :: 's' :: 't' :: ',' :: (k.data ++ ['=', '1']) := by
      have h1 : ("string,global,last," ++ k ++ "=1").data
          = "string,global,last,".data ++ (k.data ++ "=1".data) := by
        simp [String.data_append]
      simpa using h1
    have hcontains : ∀ (c : Char), k.data.contains c = false → c ≠ '=' → c ≠ '1' →
        (k.data ++ ['=', '1']).contains c = false := by
      intro c h hne1 hne2
      rw [contains_append_chars, h]
      simp [List.contains_cons]
      exact ⟨hne1, hne2⟩
    have hparts2 : parseTagParts ("string,global,last," ++ k ++ "=1")
        = ["string", "global", "last", ⟨k.data ++ ['=', '1']⟩] := by
      unfold parseTagParts
      rw [hdata]
      simp [parseTagPartsAux,
        parseTagPartsAux_plain (k.data ++ ['=', '1']) []
          (hcontains ',' hc (by decide) (by decide))
          (hcontains '\x7b' hb1 (by decide) (by decide))
          (hcontains '\x7d' hb2 (by decide) (by decide))]
    have hkv : splitN2 '=' ⟨k.data ++ ['=', '1']⟩ = [k, "1"] := by
      unfold splitN2
      have hnone : k.data.findIdx? (· == '=') = none := by
        rw [List.findIdx?_eq_none_iff]
        intro x hx
        simpa using ne_of_contains_false he hx
      have hfind : (k.data ++ ['=', '1']).findIdx? (· == '=') = some k.data.length := by
        rw [List.findIdx?_append, hnone]
        simp [List.findIdx?_cons]
      simp only [hfind]
      have h1 : (k.data ++ ['=', '1']).take k.length = k.data := by
        have : k.length = k.data.length := rfl
        rw [this]
        simp [List.take_append_of_le_length]
      have h2 : (k.data ++ ['=', '1']).drop (k.length + 1) = ['1'] := by
        have : k.length = k.data.length := rfl
        rw [this, List.drop_append_eq_append_drop]
        simp
      simp [h1, h2]
    have hkeys : k ≠ "help" ∧ k ≠ "default" ∧ k ≠ "required" ∧ k ≠ "complete"
        ∧ k ≠ "args" ∧ k ≠ "suffix" ∧ k ≠ "enum" := by
      refine ⟨?_, ?_, ?_, ?_, ?_, ?_, ?_⟩ <;> (rintro rfl; simp at hk)
    have hcontEq : containsChar (⟨k.data ++ ['=', '1']⟩ : String) '=' = true := by
      simp [containsChar, contains_append_chars]
    have htrimKV : goTrimSpace (⟨k.data ++ ['=', '1']⟩ : String) = ⟨k.data ++ ['=', '1']⟩ := by
      apply goTrimSpace_eq_self
      simp [List.all_append, hsp]
      decide
    have hneKV : (⟨k.data ++ ['=', '1']⟩ : String) ≠ "" := by
      intro hx
      have := congrArg String.data hx
      simp at this
    have e1 : goTrimSpace "string" = "string" := by decide
    have e2 : containsChar "string" '=' = false := by decide
    have e3 : goTrimSpace "global" = "global" := by decide
    have e4 : containsChar "global" '=' = false := by decide
    have e5 : goTrimSpace "last" = "last" := by decide
    have e6 : containsChar "last" '=' = false := by decide
    simp only [parseFieldTag, hparts2]
    simp [parseFieldTagLoop, parseFieldType, parseFieldScope, parseFieldMode, htrimKV,
      hneKV, hcontEq, parseKeyValue, hkv, htrim, hkeys.1, hkeys.2.1, hkeys.2.2.1,
      hkeys.2.2.2.1, hkeys.2.2.2.2.1, hkeys.2.2.2.2.2.1, hkeys.2.2.2.2.2.2,
      e1, e2, e3, e4, e5, e6]

/-- Witness for C7 at concrete offending tokens. -/
theorem c7_descriptor_errors_witness :
    parseFieldTag "F" "" = .error "empty tag"
      ∧ parseFieldTag "F" "blob" = .error "unknown field type: blob"
      ∧ parseFieldTag "F" "string,clausal" = .error "unknown field scope: clausal"
      ∧ parseFieldTag "F" "string,global,first" = .error "unknown field mode: first"
      ∧ parseFieldTag "F" "string,global,last,color=1" = .error "unknown key in tag: color"
      ∧ parseFieldTag "F" "bogus,badscope,badmode" = .error "unknown field type: bogus"
      ∧ parseFieldTag "F" "string,global"
        = .ok { name := "F", ftype := FieldTypeString, scope := ScopeGlobal,
                mode := ModeLast } := by
  refine ⟨c7_descriptor_errors_amended.1 "F",
    c7_descriptor_errors_amended.2.1 "F" "blob" (by decide) (by decide),
    c7_descriptor_errors_amended.2.2.1 "F" "clausal" (by decide) (by decide),
    c7_descriptor_errors_amended.2.2.2.1 "F" "first" (by decide) (by decide),
    ?_,
    c7_descriptor_errors_amended.2.2.2.2.2.1 "F",
    c7_descriptor_errors_amended.2.2.2.2.2.2 "F"⟩
  have h := c7_descriptor_errors_amended.2.2.2.2.1 "F" "color" (by decide) (by decide)
  simpa using h

/-! ### C9: cursor positions at or past the end of the vector -/

/-- **C9.** For a cursor position at or beyond the argument vector's length
the completion analysis stays well defined: the current token is taken as
empty, and the backward flag scan clamps the position to the vector bounds —
`findLastFlag` behaves exactly as at position `args.length`.  (All vector
accesses in the embedding are total, mirroring the bounds guards of the Go
code.) -/
theorem c9_position_clamping :
    (∀ (fields : List FieldMeta) (args : List String) (pos : Nat), args.length ≤ pos →
      (analyzeCompletionContext fields args pos).Current = "") ∧
    (∀ (fields : List FieldMeta) (args : List String) (pos : Nat), args.length ≤ pos →
      findLastFlag fields args pos = findLastFlag fields args args.length) := by
  constructor
  · intro fields args pos h
    have hcur : ¬(pos < args.length) := by omega
    unfold analyzeCompletionContext
    simp only [hcur, if_false, reduceIte]
    repeat' split <;> try rfl
  · intro fields args pos h
    unfold findLastFlag
    have h1 : ((pos : Int) > (args.length : Int) - 1) := by omega
    have h2 : ((args.length : Int) > (args.length : Int) - 1) := by omega
    rw [if_pos h1, if_pos h2]

/-- Witness for C9 at the vector `["-type"]` and position 5, the test
vector of `TestPositionHandling`. -/
theorem c9_position_clamping_witness :
    (analyzeCompletionContext testCompletionFields ["-type"] 5).Current = ""
      ∧ findLastFlag testCompletionFields ["-type"] 5
        = findLastFlag testCompletionFields ["-type"] (["-type"] : List String).length :=
  ⟨c9_position_clamping.1 testCompletionFields ["-type"] 5 (by decide),
   c9_position_clamping.2 testCompletionFields ["-type"] 5 (by decide)⟩

/-! ### C10: reserved built-in switches -/

/-- **C10 counterexample.** The claim says that in any later position the
reserved switches are rejected by `Parse` as unknown flags; but when such a
token is consumed as the *value* of a preceding switch it is accepted:
`["-name", "-help"]` parses successfully with `Name = "-help"`. -/
theorem c10_reserved_as_value_parses :
    Parse testCompletionFields ["-name", "-help"]
      = .ok [⟨[("Name", GoVal.str "-help"), ("Type", GoVal.str "bar")], false⟩] := by
  simp +decide [Parse, parseArgsLoop, parseFlagWithNegation, findFieldMeta,
    testCompletionFields, fieldsOfTag, parseFieldTag, parseTagParts, parseTagPartsAux,
    parseFieldTagLoop, parseFieldType, parseFieldScope, parseFieldMode, parseKeyValue,
    splitN2, goTrimSpace, containsChar, goHasPre, goHasSuffix, parseFlagName, goToLower,
    asciiLower, flagNameAux, parseEnumValues, parseDefaultValue, splitOnChar,
    splitOnCharAux, withTarget, storeByMode, assocGet, assocSet, applyGlobalFields,
    applyDefaults, parseValueWithValidation, parseValue, getStringSlice, goIsSpace,
    parseArgumentSpecs, goParseBool]

/-- **C10 (amended).** `-help`/`--help`, `-man`, `-complete` and
`-bash-completion` are dispatched by `Execute` exactly when they are the
first element of the argument vector; with any other first element `Execute`
just parses.  In a later position they are not treated specially: read as a
flag token they are rejected by the flag parser as unknown (they match no
declared field), though a reserved word consumed as the *value* of a
preceding switch is accepted as that value. -/
theorem c10_builtin_dispatch_amended :
    (∀ (rest : List String),
      Execute testCompletionFields ("-help" :: rest) = .helpOut
        ∧ Execute testCompletionFields ("--help" :: rest) = .helpOut
        ∧ Execute testCompletionFields ("-man" :: rest) = .manOut
        ∧ Execute testCompletionFields ("-complete" :: rest) = .completionOut
        ∧ Execute testCompletionFields ("-bash-completion" :: rest) = .bashCompletionOut) ∧
    (∀ (a : String) (rest : List String),
      a ≠ "-help" → a ≠ "--help" → a ≠ "-man" → a ≠ "-complete" → a ≠ "-bash-completion" →
      Execute testCompletionFields (a :: rest)
        = match Parse testCompletionFields (a :: rest) with
          | .error e => .failed ("parsing arguments: " ++ e)
          | .ok clauses => .executed clauses) ∧
    (∀ b ∈ (["-help", "-man", "-complete", "-bash-completion"] : List String),
      ∀ (rest : List String) (clause : ClauseSet) (global : GoMap) (negated : Bool),
        parseFlagWithNegation testCompletionFields (b :: rest) clause global negated
          = .error ("unknown flag: " ++ b)) ∧
    Parse testCompletionFields ["-field", "x", "-help"] = .error "unknown flag: -help" := by
  refine ⟨fun rest => ⟨rfl, rfl, rfl, rfl, rfl⟩, ?_, ?_, ?_⟩
  · intro a rest h1 h2 h3 h4 h5
    simp [Execute, h1, h2, h3, h4, h5]
  · intro b hb rest clause global negated
    fin_cases hb <;> simp [parseFlagWithNegation,
      show findFieldMeta testCompletionFields "-help" = none from rfl,
      show findFieldMeta testCompletionFields "-man" = none from rfl,
      show findFieldMeta testCompletionFields "-complete" = none from rfl,
      show findFieldMeta testCompletionFields "-bash-completion" = none from rfl]
  · simp +decide [Parse, parseArgsLoop, parseFlagWithNegation, findFieldMeta,
      testCompletionFields, fieldsOfTag, parseFieldTag, parseTagParts, parseTagPartsAux,
      parseFieldTagLoop, parseFieldType, parseFieldScope, parseFieldMode, parseKeyValue,
      splitN2, goTrimSpace, containsChar, goHasPre, goHasSuffix, parseFlagName, goToLower,
      asciiLower, flagNameAux, parseEnumValues, parseDefaultValue, splitOnChar,
      splitOnCharAux, withTarget, storeByMode, assocGet, assocSet, applyGlobalFields,
      applyDefaults, parseValueWithValidation, parseValue, getStringSlice, goIsSpace,
      parseArgumentSpecs, goParseBool]

/-- Witness for C10: the non-reserved head `-name` falls through to parsing,
and `-complete` in flag position is rejected as unknown. -/
theorem c10_builtin_dispatch_witness :
    Execute testCompletionFields ["-name", "x"]
        = (match Parse testCompletionFields ["-name", "x"] with
           | .error e => .failed ("parsing arguments: " ++ e)
           | .ok clauses => .executed clauses)
      ∧ parseFlagWithNegation testCompletionFields ["-complete"] ⟨[], false⟩ [] false
        = .error "unknown flag: -complete" :=
  ⟨c10_builtin_dispatch_amended.2.1 "-name" ["x"] (by decide) (by decide) (by decide)
      (by decide) (by decide),
   by
    have h := c10_builtin_dispatch_amended.2.2.1 "-complete" (by decide) [] ⟨[], false⟩ [] false
    simpa using h⟩

/-! ### C2: error propagation on the completion paths -/

/-- **C2 counterexample.** The claim says completion-path failures never
propagate as errors; but field-name completion propagates the unreadable-file
error from `getFields` straight through `complete`: completing the field
argument of `-field` with the detected data file unreadable yields an error,
not an empty candidate list. -/
theorem c2_field_completion_error_propagates :
    (complete (NewCommand testCompletionFields) (fun _ => none) (fun _ => none)
        ["-field", "", "data.tsv"] 1).1
      = .error "opening file data.tsv: open data.tsv: no such file or directory" := rfl

/-- **C2 (amended).** Content-value completion always degrades to a
candidate list (never an error), filesystem completion always degrades (an
unreadable directory yields an empty list), and a field name missing from
the file's header yields an empty value list without error; but field-name
completion (`completeField`, used for field-kind switches and field-type
multi-arguments) propagates the unreadable-file and empty-file errors of
`getFields` instead of degrading. -/
theorem c2_completion_errors_amended :
    (∀ (cmd : GSCommand) (fs : Fs) (file fd p : String),
      ∃ xs cmd', completeContent cmd fs file fd p = (.ok xs, cmd')) ∧
    (∀ (dirs : Dirs) (p : String) (meta : Option FieldMeta),
      ∃ xs, completeFilesWithSuffix dirs p meta = .ok xs) ∧
    (∀ (p : String) (meta : Option FieldMeta),
      completeFilesWithSuffix (fun _ => none) p meta = .ok []) ∧
    (∀ (cmd : GSCommand) (fs : Fs) (file fd hdr : String) (rows : List String),
      assocGet cmd.contentCache file = none →
      fs file = some (hdr :: rows) →
      (parseTSVHeader hdr).findIdx? (fun g => g == fd) = none →
      (getFieldValues cmd fs file fd).1 = .ok []) ∧
    (∀ (cmd : GSCommand) (fs : Fs) (file p : String),
      assocGet cmd.fieldCache file = none → fs file = none →
      (completeField cmd fs file p).1
        = .error ("opening file " ++ file ++ ": " ++ osOpenErrMsg file)) ∧
    (∀ (cmd : GSCommand) (fs : Fs) (file p : String),
      assocGet cmd.fieldCache file = none → fs file = some [] →
      (completeField cmd fs file p).1 = .error ("file " ++ file ++ " is empty")) := by
  refine ⟨?_, ?_, ?_, ?_, ?_, ?_⟩
  · intro cmd fs file fd p
    rcases hgv : getFieldValues cmd fs file fd with ⟨res, cmd'⟩
    cases res with
    | error e => exact ⟨[], cmd', by simp [completeContent, hgv]⟩
    | ok values =>
      exact ⟨values.filter (fun v => goHasPre (goToLower v) (goToLower p)), cmd',
        by simp [completeContent, hgv]⟩
  · intro dirs p meta
    have hgen : ∀ (d : String × String), ∃ xs, (match dirs d.1 with
        | none => (Except.ok [] : Except String (List String))
        | some entries =>
          let t := completeFilesLoop d.1 d.2 meta entries
          Except.ok (t.1 ++ t.2.1 ++ t.2.2)) = .ok xs := by
      intro d
      cases dirs d.1 with
      | none => exact ⟨[], rfl⟩
      | some entries => exact ⟨_, rfl⟩
    unfold completeFilesWithSuffix
    exact hgen _
  · intro p meta
    unfold completeFilesWithSuffix
    rfl
  · intro cmd fs file fd hdr rows hcache hfs hidx
    unfold getFieldValues
    simp [hcache, hfs, hidx]
  · intro cmd fs file p hcache hfs
    unfold completeField getFields
    simp [hcache, hfs]
  · intro cmd fs file p hcache hfs
    unfold completeField getFields
    simp [hcache, hfs]

/-- Witness for C2 at concrete inputs: a file whose header lacks the
requested field, and an unreadable file/empty file for field-name
completion. -/
theorem c2_completion_errors_witness :
    (∃ xs cmd', completeContent (NewCommand testCompletionFields)
        (fun _ => none) "data.tsv" "x" "" = (.ok xs, cmd'))
      ∧ completeFilesWithSuffix (fun _ => none) "" none = .ok []
      ∧ (getFieldValues (NewCommand testCompletionFields)
          (fun n => if n = "data.tsv" then some ["x", "1"] else none) "data.tsv" "nope").1
          = .ok []
      ∧ (completeField (NewCommand testCompletionFields) (fun _ => none) "data.tsv" "").1
          = .error ("opening file " ++ "data.tsv" ++ ": " ++ osOpenErrMsg "data.tsv")
      ∧ (completeField (NewCommand testCompletionFields)
          (fun n => if n = "data.tsv" then some [] else none) "data.tsv" "").1
          = .error ("file " ++ "data.tsv" ++ " is empty") :=
  ⟨c2_completion_errors_amended.1 (NewCommand testCompletionFields) (fun _ => none)
      "data.tsv" "x" "",
   c2_completion_errors_amended.2.2.1 "" none,
   c2_completion_errors_amended.2.2.2.1 (NewCommand testCompletionFields) _
     "data.tsv" "nope" "x" ["1"] rfl rfl (by decide),
   c2_completion_errors_amended.2.2.2.2.1 (NewCommand testCompletionFields) _
     "data.tsv" "" rfl rfl,
   c2_completion_errors_amended.2.2.2.2.2 (NewCommand testCompletionFields) _
     "data.tsv" "" rfl rfl⟩

/-! ### C6: cache behaviour of `getFields` and `getFieldValues` -/

theorem assocGet_assocSet_self {α : Type} (m : List (String × α)) (k : String) (v : α) :
    assocGet (assocSet m k v) k = some v := by
  induction m with
  | nil => simp [assocSet, assocGet]
  | cons kv rest ih =>
    by_cases h : kv.1 = k
    · simp [assocSet, assocGet, h]
    · cases kv
      simp_all [assocSet, assocGet, h]

theorem assocGet_assocSet_ne {α : Type} (m : List (String × α)) {k kq : String} (v : α)
    (h : kq ≠ k) : assocGet (assocSet m k v) kq = assocGet m kq := by
  have hk : ¬(k = kq) := fun he => h he.symm
  induction m with
  | nil => simp [assocSet, assocGet, hk]
  | cons kv rest ih =>
    cases kv with
    | mk k1 v1 =>
      by_cases h1 : k1 = k
      · subst h1
        simp [assocSet, assocGet, hk]
      · simp [assocSet, assocGet, h1, ih]

/-- The two test filesystems of the cache counterexample: the same file
first with header `x` only, then with header `y` and one data row. -/
def c6FsHeaderOnly : Fs := fun n => if n = "a.tsv" then some ["x"] else none

def c6FsChanged : Fs := fun n => if n = "a.tsv" then some ["y", "v"] else none

/-- **C6 counterexample.** `getFieldValues` returns without error (`ok []`)
when the field is missing from the header, but does *not* cache that result:
a second call with the same key reads the file again (here the re-read
observes changed contents and returns `["v"]` instead of the cached-expected
`[]`), contradicting the claim that every error-free result is served from
cache without a second read. -/
theorem c6_uncached_success_rereads :
    (getFieldValues (NewCommand testCompletionFields) c6FsHeaderOnly "a.tsv" "y").1 = .ok []
      ∧ (getFieldValues
          (getFieldValues (NewCommand testCompletionFields) c6FsHeaderOnly "a.tsv" "y").2
          c6FsChanged "a.tsv" "y").1 = .ok ["v"] := by
  constructor
  · rfl
  · simp +decide [getFieldValues, c6FsHeaderOnly, c6FsChanged, assocGet, assocSet,
      parseTSVHeader, splitOnChar, splitOnCharAux, containsChar, goTrimSpace, goIsSpace,
      isAlnumGo, collectUnique, rowValue, selSort, selectMin, NewCommand]

/-- **C6 (amended).** `getFields` caches every successful read: a second
call with the same file is served from the cache, independent of the
filesystem, with the identical result and no state change.  For
`getFieldValues` the same holds for every successful call except the
field-not-found case, whose empty result is not cached (the second call
re-reads the file).  Cache entries, once written, are never modified or
invalidated: hits leave the state untouched, each operation preserves every
existing entry of both caches, and neither operation touches the other's
cache. -/
theorem c6_cache_amended :
    (∀ (cmd : GSCommand) (fs : Fs) (file : String) (v : List String) (cmd' : GSCommand),
      getFields cmd fs file = (.ok v, cmd') →
      ∀ (fs₂ : Fs), getFields cmd' fs₂ file = (.ok v, cmd')) ∧
    (∀ (cmd : GSCommand) (fs : Fs) (file fd : String) (v : List String) (cmd' : GSCommand),
      getFieldValues cmd fs file fd = (.ok v, cmd') →
      (∀ (fs₂ : Fs), getFieldValues cmd' fs₂ file fd = (.ok v, cmd')) ∨ v = []) ∧
    (∀ (cmd : GSCommand) (fs : Fs) (file : String) (v : List String),
      assocGet cmd.fieldCache file = some v → getFields cmd fs file = (.ok v, cmd)) ∧
    (∀ (cmd : GSCommand) (fs : Fs) (file fd : String) (v : List String),
      (assocGet cmd.contentCache file >>= fun fc => assocGet fc fd) = some v →
      getFieldValues cmd fs file fd = (.ok v, cmd)) ∧
    (∀ (cmd : GSCommand) (fs : Fs) (file k : String) (v : List String),
      assocGet cmd.fieldCache k = some v →
      assocGet ((getFields cmd fs file).2).fieldCache k = some v) ∧
    (∀ (cmd : GSCommand) (fs : Fs) (file fd k kd : String) (v : List String),
      (assocGet cmd.contentCache k >>= fun fc => assocGet fc kd) = some v →
      (assocGet ((getFieldValues cmd fs file fd).2).contentCache k
        >>= fun fc => assocGet fc kd) = some v) ∧
    (∀ (cmd : GSCommand) (fs : Fs) (file : String),
      ((getFields cmd fs file).2).contentCache = cmd.contentCache) ∧
    (∀ (cmd : GSCommand) (fs : Fs) (file fd : String),
      ((getFieldValues cmd fs file fd).2).fieldCache = cmd.fieldCache) := by
  have hfieldsHit : ∀ (cmd : GSCommand) (fs : Fs) (file : String) (v : List String),
      assocGet cmd.fieldCache file = some v → getFields cmd fs file = (.ok v, cmd) := by
    intro cmd fs file v h
    simp [getFields, h]
  have hvaluesHit : ∀ (cmd : GSCommand) (fs : Fs) (file fd : String) (v : List String),
      (assocGet cmd.contentCache file >>= fun fc => assocGet fc fd) = some v →
      getFieldValues cmd fs file fd = (.ok v, cmd) := by
    intro cmd fs file fd v h
    simp [getFieldValues, h]
  refine ⟨?_, ?_, hfieldsHit, hvaluesHit, ?_, ?_, ?_, ?_⟩
  · intro cmd fs file v cmd' h fs₂
    unfold getFields at h
    cases hc : assocGet cmd.fieldCache file with
    | some w =>
      rw [hc] at h
      simp only [Prod.mk.injEq, Except.ok.injEq] at h
      obtain ⟨hv, hcmd⟩ := h
      subst hcmd
      rw [← hv]
      exact hfieldsHit cmd fs₂ file w hc
    | none =>
      rw [hc] at h
      cases hf : fs file with
      | none =>
        rw [hf] at h
        simp at h
      | some lines =>
        rw [hf] at h
        cases lines with
        | nil => simp at h
        | cons hdr tl =>
          simp only [Prod.mk.injEq, Except.ok.injEq] at h
          obtain ⟨hv, hcmd⟩ := h
          subst hcmd
          rw [← hv]
          exact hfieldsHit _ fs₂ file _ (assocGet_assocSet_self _ _ _)
  · intro cmd fs file fd v cmd' h
    unfold getFieldValues at h
    cases hc : (assocGet cmd.contentCache file >>= fun fc => assocGet fc fd) with
    | some w =>
      rw [hc] at h
      simp only [Prod.mk.injEq, Except.ok.injEq] at h
      obtain ⟨hv, hcmd⟩ := h
      subst hcmd
      rw [← hv]
      exact Or.inl (fun fs₂ => hvaluesHit cmd fs₂ file fd w hc)
    | none =>
      rw [hc] at h
      cases hf : fs file with
      | none =>
        rw [hf] at h
        simp at h
      | some lines =>
        rw [hf] at h
        cases lines with
        | nil => simp at h
        | cons hdr dataLines =>
          simp only [] at h
          cases hidx : (parseTSVHeader hdr).findIdx? (fun f => f == fd) with
          | none =>
            rw [hidx] at h
            simp only [Prod.mk.injEq, Except.ok.injEq] at h
            exact Or.inr h.1.symm
          | some fieldIndex =>
            rw [hidx] at h
            simp only [Prod.mk.injEq, Except.ok.injEq] at h
            obtain ⟨hv, hcmd⟩ := h
            subst hcmd
            refine Or.inl (fun fs₂ => ?_)
            apply hvaluesHit
            rw [← hv]
            simp [assocGet_assocSet_self]
  · intro cmd fs file k v h
    unfold getFields
    cases hc : assocGet cmd.fieldCache file with
    | some w => simpa using h
    | none =>
      cases hf : fs file with
      | none => simpa using h
      | some lines =>
        cases lines with
        | nil => simpa using h
        | cons hdr tl =>
          by_cases hk : k = file
          · subst hk
            rw [hc] at h
            simp at h
          · simpa [assocGet_assocSet_ne _ _ hk] using h
  · intro cmd fs file fd k kd v h
    unfold getFieldValues
    cases hc : (assocGet cmd.contentCache file >>= fun fc => assocGet fc fd) with
    | some w => simpa using h
    | none =>
      cases hco : assocGet cmd.contentCache file with
      | some fc0 =>
        have hfd : assocGet fc0 fd = none := by
          rw [hco] at hc
          simpa using hc
        simp only [hco, Option.isSome_some, if_true, reduceIte, Option.getD_some]
        cases hf : fs file with
        | none => simpa using h
        | some lines =>
          cases lines with
          | nil => simpa using h
          | cons hdr dataLines =>
            cases hidx : (parseTSVHeader hdr).findIdx? (fun f => f == fd) with
            | none => simpa [hidx] using h
            | some fieldIndex =>
              simp only [hidx]
              by_cases hk : k = file
              · subst hk
                rw [hco] at h
                simp at h
                have hkd : kd ≠ fd := by
                  intro he
                  rw [he, hfd] at h
                  simp at h
                simp [assocGet_assocSet_self, assocGet_assocSet_ne _ _ hkd, h]
              · simpa [assocGet_assocSet_ne _ _ hk] using h
      | none =>
        by_cases hk : k = file
        · subst hk
          rw [hco] at h
          simp at h
        · simp only [hco, Option.isSome_none, reduceIte]
          cases hf : fs file with
          | none => simpa [assocGet_assocSet_ne _ _ hk] using h
          | some lines =>
            cases lines with
            | nil => simpa [assocGet_assocSet_ne _ _ hk] using h
            | cons hdr dataLines =>
              cases hidx : (parseTSVHeader hdr).findIdx? (fun f => f == fd) with
              | none => simpa [hidx, assocGet_assocSet_ne _ _ hk] using h
              | some fieldIndex => simpa [hidx, assocGet_assocSet_ne _ _ hk] using h
  · intro cmd fs file
    unfold getFields
    cases hc : assocGet cmd.fieldCache file with
    | some w => rfl
    | none =>
      cases hf : fs file with
      | none => rfl
      | some lines =>
        cases lines with
        | nil => rfl
        | cons hdr tl => rfl
  · intro cmd fs file fd
    unfold getFieldValues
    cases hc : (assocGet cmd.contentCache file >>= fun fc => assocGet fc fd) with
    | some w => rfl
    | none =>
      cases hco : assocGet cmd.contentCache file with
      | some fc0 =>
        simp only [hco, Option.isSome_some, reduceIte]
        cases hf : fs file with
        | none => simp
        | some lines =>
          cases lines with
          | nil => simp
          | cons hdr dataLines =>
            cases hidx : (parseTSVHeader hdr).findIdx? (fun f => f == fd) with
            | none => simp [hidx]
            | some fieldIndex => simp [hidx]
      | none =>
        simp only [hco, Option.isSome_none, reduceIte]
        cases hf : fs file with
        | none => simp
        | some lines =>
          cases lines with
          | nil => simp
          | cons hdr dataLines =>
            cases hidx : (parseTSVHeader hdr).findIdx? (fun f => f == fd) with
            | none => simp [hidx]
            | some fieldIndex => simp [hidx]


theorem c6_cache_amended_witness :
    getFields ((getFields (NewCommand testCompletionFields) c6FsChanged "a.tsv").2)
        c6FsHeaderOnly "a.tsv"
      = (.ok ["y"], (getFields (NewCommand testCompletionFields) c6FsChanged "a.tsv").2) :=
  c6_cache_amended.1 (NewCommand testCompletionFields) c6FsChanged "a.tsv" ["y"]
    ((getFields (NewCommand testCompletionFields) c6FsChanged "a.tsv").2) rfl c6FsHeaderOnly


/-! ### Correctness of the selection sort and the value collection -/

theorem selectMin_fst_le (x : String) (xs : List String) :
    ∀ y ∈ x :: xs, (selectMin x xs).1 ≤ y := by
  induction xs generalizing x with
  | nil =>
    intro y hy
    simp only [List.mem_cons, List.not_mem_nil, or_false] at hy
    subst hy
    simp [selectMin]
  | cons z zs ih =>
    intro y hy
    simp only [List.mem_cons] at hy
    by_cases h : z < x
    · simp only [selectMin, if_pos h]
      rcases hy with h1 | h1 | h1
      · rw [h1]
        exact le_trans (ih z z (by simp)) h.le
      · rw [h1]
        exact ih z z (by simp)
      · exact ih z y (by simp [h1])
    · simp only [selectMin, if_neg h]
      rcases hy with h1 | h1 | h1
      · rw [h1]
        exact ih x x (by simp)
      · rw [h1]
        exact le_trans (ih x x (by simp)) (not_lt.mp h)
      · exact ih x y (by simp [h1])

theorem selectMin_perm (x : String) (xs : List String) :
    List.Perm ((selectMin x xs).1 :: (selectMin x xs).2) (x :: xs) := by
  induction xs generalizing x with
  | nil => simp [selectMin]
  | cons z zs ih =>
    by_cases h : z < x
    · simp only [selectMin, if_pos h]
      have h1 : List.Perm ((selectMin z zs).1 :: x :: (selectMin z zs).2)
          (x :: (selectMin z zs).1 :: (selectMin z zs).2) := List.Perm.swap _ _ _
      exact h1.trans (List.Perm.cons x (ih z))
    · simp only [selectMin, if_neg h]
      have h1 : List.Perm ((selectMin x zs).1 :: z :: (selectMin x zs).2)
          (z :: (selectMin x zs).1 :: (selectMin x zs).2) := List.Perm.swap _ _ _
      exact h1.trans ((List.Perm.cons z (ih x)).trans (List.Perm.swap _ _ _))

theorem selSort_perm_aux : ∀ (n : Nat) (l : List String), l.length = n →
    List.Perm (selSort l) l := by
  intro n
  induction n using Nat.strong_induction_on with
  | _ n ih =>
    intro l hn
    match l with
    | [] => simp [selSort]
    | x :: xs =>
      simp only [selSort]
      have hrec := ih (selectMin x xs).2.length
        (by subst hn; simp [selectMin_length]) (selectMin x xs).2 rfl
      exact (List.Perm.cons _ hrec).trans (selectMin_perm x xs)

theorem selSort_perm (l : List String) : List.Perm (selSort l) l :=
  selSort_perm_aux l.length l rfl

theorem selSort_sorted_aux : ∀ (n : Nat) (l : List String), l.length = n →
    List.Pairwise (fun a b => a ≤ b) (selSort l) := by
  intro n
  induction n using Nat.strong_induction_on with
  | _ n ih =>
    intro l hn
    match l with
    | [] => simp [selSort]
    | x :: xs =>
      simp only [selSort]
      rw [List.pairwise_cons]
      constructor
      · intro b hb
        have hb2 : b ∈ (selectMin x xs).2 := (selSort_perm _).mem_iff.mp hb
        have hb3 : b ∈ x :: xs :=
          (selectMin_perm x xs).mem_iff.mp (List.mem_cons_of_mem _ hb2)
        exact selectMin_fst_le x xs b hb3
      · exact ih (selectMin x xs).2.length
          (by subst hn; simp [selectMin_length]) (selectMin x xs).2 rfl

theorem selSort_sorted (l : List String) :
    List.Pairwise (fun a b => a ≤ b) (selSort l) :=
  selSort_sorted_aux l.length l rfl

theorem mem_selSort (l : List String) (v : String) : v ∈ selSort l ↔ v ∈ l :=
  (selSort_perm l).mem_iff

theorem selSort_nodup (l : List String) (h : l.Nodup) : (selSort l).Nodup :=
  ((selSort_perm l).nodup_iff).mpr h

theorem mem_collectUnique_aux (idx : Nat) (lines : List String) :
    ∀ (acc : List String) (v : String),
      (v ∈ lines.foldl (fun values line =>
        match rowValue idx line with
        | some w => if values.contains w then values else values ++ [w]
        | none => values) acc) ↔
        v ∈ acc ∨ ∃ line ∈ lines, rowValue idx line = some v := by
  induction lines with
  | nil =>
    intro acc v
    simp
  | cons line rest ih =>
    intro acc v
    simp only [List.foldl_cons]
    rw [ih]
    cases hr : rowValue idx line with
    | none => simp [hr]
    | some w =>
      by_cases hc : acc.contains w
      · simp only [hc, if_true, reduceIte]
        have hw : w ∈ acc := by simpa using hc
        constructor
        · rintro (h | ⟨l, hl, hlv⟩)
          · exact Or.inl h
          · exact Or.inr ⟨l, List.mem_cons_of_mem _ hl, hlv⟩
        · rintro (h | ⟨l, hl, hlv⟩)
          · exact Or.inl h
          · rcases List.mem_cons.mp hl with rfl | hl2
            · rw [hr] at hlv
              simp only [Option.some.injEq] at hlv
              exact Or.inl (hlv ▸ hw)
            · exact Or.inr ⟨l, hl2, hlv⟩
      · simp only [hc, Bool.false_eq_true, if_false, reduceIte]
        constructor
        · rintro (h | ⟨l, hl, hlv⟩)
          · rcases List.mem_append.mp h with h2 | h2
            · exact Or.inl h2
            · simp only [List.mem_singleton] at h2
              exact Or.inr ⟨line, List.mem_cons_self _ _, by rw [hr, h2]⟩
          · exact Or.inr ⟨l, List.mem_cons_of_mem _ hl, hlv⟩
        · rintro (h | ⟨l, hl, hlv⟩)
          · exact Or.inl (List.mem_append.mpr (Or.inl h))
          · rcases List.mem_cons.mp hl with rfl | hl2
            · rw [hr] at hlv
              simp only [Option.some.injEq] at hlv
              exact Or.inl (List.mem_append.mpr (Or.inr (by simp [hlv])))
            · exact Or.inr ⟨l, hl2, hlv⟩

theorem mem_collectUnique (idx : Nat) (lines : List String) (v : String) :
    v ∈ collectUnique idx lines ↔ ∃ line ∈ lines, rowValue idx line = some v := by
  unfold collectUnique
  rw [mem_collectUnique_aux]
  simp

theorem nodup_collectUnique_aux (idx : Nat) (lines : List String) :
    ∀ (acc : List String), acc.Nodup →
      (lines.foldl (fun values line =>
        match rowValue idx line with
        | some w => if values.contains w then values else values ++ [w]
        | none => values) acc).Nodup := by
  induction lines with
  | nil =>
    intro acc h
    simpa using h
  | cons line rest ih =>
    intro acc h
    simp only [List.foldl_cons]
    apply ih
    cases hr : rowValue idx line with
    | none => simpa using h
    | some w =>
      by_cases hc : w ∈ acc
      · simpa [hc] using h
      · have h2 : (acc ++ [w]).Nodup := by simp [List.nodup_append, h, hc]
        simpa [hc] using h2

theorem nodup_collectUnique (idx : Nat) (lines : List String) :
    (collectUnique idx lines).Nodup := by
  unfold collectUnique
  exact nodup_collectUnique_aux idx lines [] List.nodup_nil

/-! ### Concrete evaluation lemmas for the glob matcher on the chunk `[tc]sv`

The well-founded recursions above do not reduce definitionally; these step
lemmas let `simp` evaluate `goMatch` on the concrete inputs of the suffix
examples. -/

theorem classRanges_tcsv (r : Char) (m0 : Bool) :
    classRanges r ['t', 'c', ']', 's', 'v'] 0 m0
      = .ok (m0 || decide ('t' ≤ r ∧ r ≤ 't') || decide ('c' ≤ r ∧ r ≤ 'c'), ['s', 'v']) := by
  have h2 : getEsc ['t', 'c', ']', 's', 'v'] = .ok ('t', ['c', ']', 's', 'v']) := rfl
  have h3 : getEsc ['c', ']', 's', 'v'] = .ok ('c', [']', 's', 'v']) := rfl
  rw [classRanges.eq_def]
  rw [if_neg (by decide)]
  split
  · rename_i a heq
    rw [h2] at heq
    exact Except.noConfusion heq
  · rename_i lo chunk1 heq
    rw [h2] at heq
    simp only [Except.ok.injEq, Prod.mk.injEq] at heq
    obtain ⟨h2a, h2b⟩ := heq
    subst h2a
    subst h2b
    show classRanges r ['c', ']', 's', 'v'] 1 (m0 || decide ('t' ≤ r ∧ r ≤ 't')) = _
    rw [classRanges.eq_def]
    rw [if_neg (by decide)]
    split
    · rename_i a heq
      rw [h3] at heq
      exact Except.noConfusion heq
    · rename_i lo chunk1 heq
      rw [h3] at heq
      simp only [Except.ok.injEq, Prod.mk.injEq] at heq
      obtain ⟨h3a, h3b⟩ := heq
      subst h3a
      subst h3b
      show classRanges r [']', 's', 'v'] 2
          (m0 || decide ('t' ≤ r ∧ r ≤ 't') || decide ('c' ≤ r ∧ r ≤ 'c')) = _
      rw [classRanges.eq_def]
      rw [if_pos (by decide)]
      rfl

theorem matchChunk_nil (s : List Char) (failed0 : Bool) :
    matchChunk [] s failed0 = if failed0 then .ok none else .ok (some s) := by
  rw [matchChunk.eq_def]

theorem matchChunk_cons_ne (c : Char) (chunkRest s : List Char) (failed0 : Bool)
    (hc : ¬(c = '[')) :
    matchChunk (c :: chunkRest) s failed0 =
      (if c = '?' then
        if (failed0 || s.isEmpty) then matchChunk chunkRest s (failed0 || s.isEmpty)
        else
          match s with
          | s0 :: srest => matchChunk chunkRest srest ((failed0 || s.isEmpty) || (s0 == '/'))
          | [] => matchChunk chunkRest [] true
      else if c = '\\' then
        match chunkRest with
        | [] => .error ()
        | d :: chunkRest2 =>
          if (failed0 || s.isEmpty) then matchChunk chunkRest2 s (failed0 || s.isEmpty)
          else
            match s with
            | s0 :: srest => matchChunk chunkRest2 srest ((failed0 || s.isEmpty) || (d != s0))
            | [] => matchChunk chunkRest2 [] true
      else
        if (failed0 || s.isEmpty) then matchChunk chunkRest s (failed0 || s.isEmpty)
        else
          match s with
          | s0 :: srest => matchChunk chunkRest srest ((failed0 || s.isEmpty) || (c != s0))
          | [] => matchChunk chunkRest [] true) := by
  rw [matchChunk.eq_def]
  simp only [hc, if_false]

theorem matchChunk_tcsv (s : List Char) (failed0 : Bool) :
    matchChunk ('[' :: ['t', 'c', ']', 's', 'v']) s failed0 =
      matchChunk ['s', 'v'] (if (failed0 || s.isEmpty) then s else s.tail)
        ((failed0 || s.isEmpty) ||
          ((decide ('t' ≤ (if (failed0 || s.isEmpty) then Char.ofNat 0
                            else s.headD (Char.ofNat 0)) ∧
                    (if (failed0 || s.isEmpty) then Char.ofNat 0
                      else s.headD (Char.ofNat 0)) ≤ 't')
            || decide ('c' ≤ (if (failed0 || s.isEmpty) then Char.ofNat 0
                               else s.headD (Char.ofNat 0)) ∧
                       (if (failed0 || s.isEmpty) then Char.ofNat 0
                         else s.headD (Char.ofNat 0)) ≤ 'c')) == false)) := by
  have hsc : (if (['t', 'c', ']', 's', 'v'] : List Char).head? = some '^'
      then (['t', 'c', ']', 's', 'v'] : List Char).tail
      else (['t', 'c', ']', 's', 'v'] : List Char)) = ['t', 'c', ']', 's', 'v'] := rfl
  rw [matchChunk.eq_def]
  simp +decide only [if_true, if_false]
  split
  · rename_i a heq
    rw [hsc, classRanges_tcsv] at heq
    exact Except.noConfusion heq
  · rename_i m chunk3 heq
    rw [hsc, classRanges_tcsv] at heq
    simp only [Except.ok.injEq, Prod.mk.injEq, Bool.false_or] at heq
    obtain ⟨hm, hc3⟩ := heq
    subst hm
    subst hc3
    rfl

/-- **C8.** `matchesSuffixPattern` is case-insensitive: its result depends
only on the case-folded filename and pattern.  For a brace pattern,
`matchesBracePattern` with brace indices `s < e` returns true iff the
filename ends with prefix+option+suffix for some option of the brace list
(options trimmed), and `matchesSuffixPattern` delegates to it whenever the
pattern contains both braces.  A pattern without braces but with a glob
metacharacter delegates to `goMatch` anchored by a leading `*`, and a
malformed glob pattern (`goMatch` error) degrades to literal suffix
matching.  Concretely, `"DATA.CSV"` matches `".\x7btsv,csv\x7d"` and
`"data.json"` does not match `".[tc]sv"`. -/
theorem c8_suffix_matching :
    (∀ (f₁ f₂ p₁ p₂ : String), goToLower f₁ = goToLower f₂ → goToLower p₁ = goToLower p₂ →
      matchesSuffixPattern f₁ p₁ = matchesSuffixPattern f₂ p₂) ∧
    (∀ (fn p : String) (s e : Nat),
      indexOfChar p '\x7b' = (s : Int) → indexOfChar p '\x7d' = (e : Int) → s < e →
      (matchesBracePattern fn p = true ↔
        ∃ opt ∈ splitOnChar ',' ⟨(p.data.drop (s + 1)).take (e - (s + 1))⟩,
          goHasSuffix fn (⟨p.data.take s⟩ ++ goTrimSpace opt ++ ⟨p.data.drop (e + 1)⟩)
            = true)) ∧
    (∀ (filename pattern : String),
      (containsChar (goToLower pattern) '\x7b' && containsChar (goToLower pattern) '\x7d')
          = true →
      matchesSuffixPattern filename pattern
        = matchesBracePattern (goToLower filename) (goToLower pattern)) ∧
    (∀ (filename pattern : String) (m : Bool),
      (containsChar (goToLower pattern) '\x7b' && containsChar (goToLower pattern) '\x7d')
          = false →
      containsAnyOf (goToLower pattern) ['*', '?', '[', ']'] = true →
      goMatch ("*" ++ goToLower pattern) (goToLower filename) = .ok m →
      matchesSuffixPattern filename pattern = m) ∧
    (∀ (filename pattern : String),
      (containsChar (goToLower pattern) '\x7b' && containsChar (goToLower pattern) '\x7d')
          = false →
      containsAnyOf (goToLower pattern) ['*', '?', '[', ']'] = true →
      goMatch ("*" ++ goToLower pattern) (goToLower filename) = .error () →
      matchesSuffixPattern filename pattern
        = goHasSuffix (goToLower filename) (goToLower pattern)) ∧
    matchesSuffixPattern "DATA.CSV" ".\x7btsv,csv\x7d" = true ∧
    matchesSuffixPattern "data.json" ".[tc]sv" = false := by
  refine ⟨?_, ?_, ?_, ?_, ?_, ?_, ?_⟩
  · intro f₁ f₂ p₁ p₂ hf hp
    unfold matchesSuffixPattern
    rw [hf, hp]
  · intro fn p s e hs he hlt
    unfold matchesBracePattern
    rw [hs, he]
    rw [if_neg (by omega)]
    simp [List.any_eq_true]
  · intro filename pattern hb
    unfold matchesSuffixPattern
    simp only [hb, if_true, reduceIte]
  · intro filename pattern m hb hg hm
    unfold matchesSuffixPattern
    simp only [hb, hg, hm, Bool.false_eq_true, if_false, reduceIte]
  · intro filename pattern hb hg hm
    unfold matchesSuffixPattern
    simp only [hb, hg, hm, Bool.false_eq_true, if_false, reduceIte]
  · decide
  · simp +decide [matchesSuffixPattern, goMatch, goMatchLoop, scanChunk, scanChunkAux,
      stripStars, starLoop, matchChunk_nil, matchChunk_cons_ne, matchChunk_tcsv,
      validateRest, goToLower, asciiLower, containsChar, containsAnyOf, goHasSuffix,
      indexOfChar]

theorem c8_suffix_matching_witness :
    matchesSuffixPattern "DATA.csv" ".\x7bTSV,csv\x7d"
      = matchesSuffixPattern "data.CSV" ".\x7btsv,CSV\x7d" :=
  c8_suffix_matching.1 "DATA.csv" "data.CSV" ".\x7bTSV,csv\x7d" ".\x7btsv,CSV\x7d"
    (by decide) (by decide)


/-- The completion context of `["data.tsv", "-match", f, p]` at position 3:
a multi-argument completion for the `content` argument of `-match`, with the
detected file `data.tsv` and the field name `f` read from argument index 0. -/
theorem c4_routing (f p : String)
    (hf1 : goHasPre f "-" = false) (hf2 : goHasPre f "+" = false)
    (hp1 : goHasPre p "-" = false) (hp2 : goHasPre p "+" = false) :
    analyzeCompletionContext testCompletionFields ["data.tsv", "-match", f, p] 3
      = { ctype := CompletionMultiArg, Current := p, TSVFile := "data.tsv",
          FieldName := f, ArgumentIndex := 1,
          argSpec := some ⟨"content", ArgumentTypeContent⟩, fieldMeta := some matchMeta } := by
  unfold analyzeCompletionContext
  simp +decide [hp1, hp2, hf1, hf2, findTSVFile, findTSVFileLoop, findLastFlag,
    findLastFlagScan, findFieldMeta_match, matchMeta, List.getD, List.enum, List.enumFrom]


/-- **C4.** For the multi-argument descriptor `args=field:content` of
`-match`, completing argument index 1 after a field name at index 0 (with
`data.tsv` the detected tabular file) returns exactly the distinct values of
that field collected from at most 100 data rows, sorted lexicographically
without duplicates, filtered by case-insensitive prefix match against the
partial token. -/
theorem c4_content_completion (fs : Fs) (dirs : Dirs) (hdr : String)
    (rows : List String) (f p : String) (idx : Nat)
    (hfs : fs "data.tsv" = some (hdr :: rows))
    (hf0 : f ≠ "")
    (hf1 : goHasPre f "-" = false) (hf2 : goHasPre f "+" = false)
    (hp1 : goHasPre p "-" = false) (hp2 : goHasPre p "+" = false)
    (hidx : (parseTSVHeader hdr).findIdx? (fun g => g == f) = some idx) :
    (complete (NewCommand testCompletionFields) fs dirs ["data.tsv", "-match", f, p] 3).1
      = .ok ((selSort (collectUnique idx (rows.take 100))).filter
          (fun v => goHasPre (goToLower v) (goToLower p)))
    ∧ List.Pairwise (fun a b => a ≤ b) (selSort (collectUnique idx (rows.take 100)))
    ∧ (selSort (collectUnique idx (rows.take 100))).Nodup
    ∧ (∀ v, v ∈ selSort (collectUnique idx (rows.take 100)) ↔
        ∃ line ∈ rows.take 100, rowValue idx line = some v) := by
  have hgv : getFieldValues (NewCommand testCompletionFields) fs "data.tsv" f
      = (.ok (selSort (collectUnique idx (rows.take 100))),
         { fields := testCompletionFields, fieldCache := [],
           contentCache := [("data.tsv", [(f, selSort (collectUnique idx (rows.take 100)))])],
           scanDepth := 100 }) := by
    unfold getFieldValues
    simp [NewCommand, assocGet, assocSet, hfs, hidx]
  have hcomp : complete (NewCommand testCompletionFields) fs dirs
      ["data.tsv", "-match", f, p] 3
      = completeContent (NewCommand testCompletionFields) fs "data.tsv" f p := by
    unfold complete
    rw [show (NewCommand testCompletionFields).fields = testCompletionFields from rfl]
    rw [c4_routing f p hf1 hf2 hp1 hp2]
    simp [completeMultiArgument, hf0]
  refine ⟨?_, selSort_sorted _, selSort_nodup _ (nodup_collectUnique _ _), ?_⟩
  · rw [hcomp]
    unfold completeContent
    rw [hgv]
  · intro v
    rw [mem_selSort, mem_collectUnique]


/-- Concrete filesystem for the content-completion witness: `data.tsv` with
header `name, city` and three data rows. -/
def c4Fs : Fs := fun n =>
  if n = "data.tsv" then some ["name\tcity", "b\tx", "a\ty", "a\tz"] else none

def c4Dirs : Dirs := fun _ => none

theorem c4_content_completion_witness :
    (complete (NewCommand testCompletionFields) c4Fs c4Dirs
        ["data.tsv", "-match", "name", ""] 3).1
      = .ok ((selSort (collectUnique 0
            ((["b\tx", "a\ty", "a\tz"] : List String).take 100))).filter
          (fun v => goHasPre (goToLower v) (goToLower "")))
    ∧ List.Pairwise (fun a b => a ≤ b) (selSort (collectUnique 0
        ((["b\tx", "a\ty", "a\tz"] : List String).take 100)))
    ∧ (selSort (collectUnique 0
        ((["b\tx", "a\ty", "a\tz"] : List String).take 100))).Nodup
    ∧ (∀ v, v ∈ selSort (collectUnique 0
          ((["b\tx", "a\ty", "a\tz"] : List String).take 100)) ↔
        ∃ line ∈ (["b\tx", "a\ty", "a\tz"] : List String).take 100,
          rowValue 0 line = some v) :=
  c4_content_completion c4Fs c4Dirs "name\tcity" ["b\tx", "a\ty", "a\tz"] "name" "" 0
    rfl (by decide) (by decide) (by decide) (by decide) (by decide) (by decide)

end GS
